import Mathlib

/-!
# packer-cli: the build tasks of `src/tasks/build.ts`

A shallow embedding of the two gulp tasks `build:copy:essentials` and
`build:bundle`, of the series `build` that runs them, and of the `validate`
functions of two questions of the task `generate` (`src/tasks/generate.ts`).

* JavaScript objects are association lists in insertion order; a property
  read that finds nothing gives `none`, JavaScript's `undefined`.
* `path.join` is Node's POSIX implementation, on segments.
* The helpers imported from `./build-util`, `./meta` and `../model/*` are not
  part of the sources at hand; they are fields of `Env`, or are
  modelled from the specification where a doc comment says so.
* The build engine behind `bundleBuild` is a parameter that may throw and
  that may change the state of the world.
* The patterns of `generate.ts` are regular expressions matched by
  derivatives; `RegExp.test_iff` relates the matcher to the match relation.
-/

set_option autoImplicit false

namespace Packer

/-! ## JavaScript values -/

/-- A JSON value, as found in a parsed `package.json`. The tasks never
compute with a number; a number is kept as its rendering, the string that
JavaScript's `String(n)` gives for it (`"0.5"`, `"1e+21"`). -/
inductive Json where
  | null
  | bool (b : Bool)
  | num (rendering : String)
  | str (s : String)
  | arr (xs : List Json)
  | obj (kvs : List (String × Json))

mutual
/-- JavaScript `String(v)` for a JSON value. -/
def jsToString : Json → String
  | .null => "null"
  | .bool b => if b then "true" else "false"
  | .num rendering => rendering
  | .str s => s
  | .arr xs => String.intercalate "," (jsElementStrings xs)
  | .obj _ => "[object Object]"
/-- The strings `Array.prototype.join` puts between the commas: `null`
elements are rendered as the empty string. -/
def jsElementStrings : List Json → List String
  | [] => []
  | .null :: xs => "" :: jsElementStrings xs
  | x :: xs => jsToString x :: jsElementStrings xs
end

/-- The coercion of a template literal `${v}`; `none` is `undefined`. -/
def templateString : Option Json → String
  | none => "undefined"
  | some v => jsToString v

/-- A parsed JSON object such as `package.json`: keys in insertion order. A
key occurs once; were it repeated, reads would see its first entry. -/
abbrev PackageJson := List (String × Json)

/-- Property read `packageJson[field]`: `none` when the key is missing. -/
def PackageJson.get (packageJson : PackageJson) (field : String) : Option Json :=
  List.lookup field packageJson

/-- A JavaScript object under construction: a property may hold `undefined`. -/
abbrev JsObject := List (String × Option Json)

/-- Property read `o[k]` on an object under construction. -/
def JsObject.get (o : JsObject) (k : String) : Option Json :=
  (List.lookup k o).join

/-- Property assignment `o[k] = v`: an existing key keeps its position, a new
key is appended. -/
def JsObject.set : JsObject → String → Option Json → JsObject
  | [], k, v => [(k, v)]
  | (k', v') :: o, k, v => if k' = k then (k, v) :: o else (k', v') :: JsObject.set o k v

/-- The keys of a parsed object, `Object.keys(o)`. -/
def PackageJson.keys (o : PackageJson) : List String :=
  o.map Prod.fst

/-- The properties that `JSON.stringify` writes for an object: those whose
value is `undefined` are omitted, the others keep their order. The written
descriptor is represented by these key/value pairs instead of by its text. -/
def jsonStringifyProps (o : JsObject) : PackageJson :=
  o.filterMap (fun p => p.2.map (fun v => (p.1, v)))

/-! ## Node's `path.join` (POSIX) -/

namespace path

/-- The segments of a path between its `/` separators. -/
def splitSlash : List Char → List (List Char)
  | [] => [[]]
  | c :: cs =>
    if c = '/' then [] :: splitSlash cs
    else
      match splitSlash cs with
      | [] => [[c]]
      | seg :: segs => (c :: seg) :: segs

/-- One step of `normalizeString`: what a segment does to the result so far.
Empty segments and `.` are skipped; `..` removes the last segment unless
there is none or it is itself `..`, in which case `..` is kept only when
`allowAboveRoot`; any other segment is appended. -/
def normalizeStep (allowAboveRoot : Bool) (res : List (List Char)) (seg : List Char) :
    List (List Char) :=
  if seg = [] ∨ seg = ['.'] then res
  else if seg = ['.', '.'] then
    if res ≠ [] ∧ res.getLast? ≠ some ['.', '.'] then res.dropLast
    else if allowAboveRoot then res ++ [['.', '.']]
    else res
  else res ++ [seg]

/-- The result segments of `normalizeString(path, allowAboveRoot, '/')`. -/
def normalizeString (allowAboveRoot : Bool) (p : List Char) : List (List Char) :=
  (splitSlash p).foldl (normalizeStep allowAboveRoot) []

/-- The function `posix.normalize`. -/
def normalize (p : List Char) : List Char :=
  if p = [] then ['.']
  else
    let isAbsolute := p.head? = some '/'
    let trailingSeparator := p.getLast? = some '/'
    let res := ['/'].intercalate (normalizeString (!decide isAbsolute) p)
    if res = [] then
      if isAbsolute then ['/']
      else if trailingSeparator then ['.', '/'] else ['.']
    else
      let res := if trailingSeparator then res ++ ['/'] else res
      if isAbsolute then '/' :: res else res

/-- The function `posix.join` on character lists: the non-empty arguments
are joined with `/` and the result is normalized. -/
def joinChars (args : List (List Char)) : List Char :=
  match args.filter (fun a => a ≠ []) with
  | [] => ['.']
  | parts => normalize (['/'].intercalate parts)

/-- The function `path.join(...args)`. -/
def join (args : List String) : String :=
  String.mk (joinChars (args.map String.data))

/-- The segments that `normalizeString` keeps when there is no `..`. -/
def keptSegments (segs : List (List Char)) : List (List Char) :=
  segs.filter (fun s => decide (s ≠ [] ∧ s ≠ ['.']))

end path

/-! ## Configuration -/

/-- The fields of `config.compiler` read by the build tasks. -/
structure CompilerConfig where
  cliProject : Bool
  scriptPreprocessor : String
  deriving DecidableEq

/-- The object `config.output.amd`. -/
structure AmdConfig where
  define : String
  id : String
  deriving DecidableEq

/-- The fields of `config.output` read by the build tasks. -/
structure OutputConfig where
  es5 : Bool
  es2015 : Bool
  minBundle : Bool
  dependencyMapMode : String
  amd : Option AmdConfig
  format : String
  namespace_ : Option String
  deriving DecidableEq

/-- The fields of `config.bundle` read by the build tasks; `globals` maps a
module name to the name of a global variable. -/
structure BundleConfig where
  externals : List String
  globals : List (String × String)
  mapExternals : Bool
  deriving DecidableEq

/-- The merged project configuration returned by `readConfig()`, with the
field paths under which `build.ts` reads it. Flags are kept by their
truthiness. -/
structure Config where
  dist : String
  copy : List String
  compiler : CompilerConfig
  output : OutputConfig
  bundle : BundleConfig
  deriving DecidableEq

/-- The enumeration `DependencyMap` of `../model/dependency-map`. -/
inductive DependencyMap where
  | crossMapPeerDependency
  | crossMapDependency
  | mapDependency
  | mapPeerDependency
  | all
  deriving DecidableEq

/-- Modelled from the spec: the enumeration `DependencyMap` is declared in
`model/dependency-map`, which is not among the sources. The result is the
member whose case label `DependencyMap.<member>` is strictly equal to the
index expression `DependencyMap[mode]`, if there is one.

* For a mode that is the name of a member, `DependencyMap[mode]` is the very
  property that the case label reads, so that case is taken whatever the
  enumeration holds.
* By the specification, each of the five mode names documented in
  `.packerrc.base.js` selects its member.
* Any other value indexes nothing, or a value that no case label equals. -/
def DependencyMap.ofMode (mode : String) : Option DependencyMap :=
  if mode = "crossMapPeerDependency" ∨ mode = "cross-map-peer-dependency" then
    some .crossMapPeerDependency
  else if mode = "crossMapDependency" ∨ mode = "cross-map-dependency" then
    some .crossMapDependency
  else if mode = "mapDependency" ∨ mode = "map-dependency" then some .mapDependency
  else if mode = "mapPeerDependency" ∨ mode = "map-peer-dependency" then
    some .mapPeerDependency
  else if mode = "all" then some .all
  else none

/-- Modelled from the spec: `ScriptPreprocessor.typescript` of
`model/script-preprocessor`, the typed script preprocessor, named
`typescript` in `.packerrc.base.js`. -/
def ScriptPreprocessor.typescript : String := "typescript"

/-! ## The task `build:copy:essentials` -/

/-- The whitelist `fieldsToCopy`. -/
def fieldsToCopy : List String :=
  ["name", "version", "description", "keywords", "author", "repository", "license", "bugs",
    "homepage"]

/-- The object `targetPackage` at the point where it is serialized. -/
def targetPackage (config : Config) (packageJson : PackageJson) : JsObject :=
  let targetPackage : JsObject := []
  let targetPackage :=
    fieldsToCopy.foldl (fun t field => t.set field (packageJson.get field)) targetPackage
  let targetPackage :=
    if config.compiler.cliProject then targetPackage.set "bin" (packageJson.get "bin")
    else targetPackage
  let targetPackage := targetPackage.set "main"
    (some (.str (path.join ["bundle", templateString (packageJson.get "name") ++ ".js"])))
  let targetPackage :=
    if config.compiler.scriptPreprocessor = ScriptPreprocessor.typescript then
      targetPackage.set "typings" (some (.str "index.d.ts"))
    else targetPackage
  let targetPackage :=
    if config.output.es5 then
      (targetPackage.set "module"
        (some (.str (path.join ["fesm5", templateString (packageJson.get "name") ++ ".js"])))).set
        "fesm5"
        (some (.str (path.join ["fesm5", templateString (packageJson.get "name") ++ ".js"])))
    else targetPackage
  let targetPackage :=
    if config.output.es2015 then
      (targetPackage.set "esnext"
        (some (.str
          (path.join ["fesmnext", templateString (packageJson.get "name") ++ ".js"])))).set
        "fesmnext"
        (some (.str (path.join ["fesmnext", templateString (packageJson.get "name") ++ ".js"])))
    else targetPackage
  match DependencyMap.ofMode config.output.dependencyMapMode with
  | some .crossMapPeerDependency =>
    targetPackage.set "peerDependencies" (packageJson.get "dependencies")
  | some .crossMapDependency =>
    targetPackage.set "dependencies" (packageJson.get "peerDependencies")
  | some .mapDependency =>
    targetPackage.set "dependencies" (packageJson.get "dependencies")
  | some .mapPeerDependency =>
    targetPackage.set "peerDependencies" (packageJson.get "peerDependencies")
  | some .all =>
    (targetPackage.set "peerDependencies" (packageJson.get "peerDependencies")).set
      "dependencies" (packageJson.get "dependencies")
  | none => targetPackage

/-- The content of the `package.json` that the task writes:
`JSON.stringify(targetPackage, null, 2)`, as key/value pairs. -/
def packageDescriptor (config : Config) (packageJson : PackageJson) : PackageJson :=
  jsonStringifyProps (targetPackage config packageJson)

/-- The executable entry stub written for a command-line project. -/
structure BinStub where
  /-- Destination directory: the `bin` folder of the output directory. -/
  dir : String
  /-- File name given by the `rename` option. -/
  file : String
  /-- The template variable `packageName`. -/
  packageName : Option Json
  /-- Permission bits set by `chmod`. -/
  mode : Nat

/-- The validity check that `gulp.src` of gulp 4 makes before it opens a
stream: a list of globs must be non-empty and must hold no empty string;
otherwise the call throws `Invalid glob argument: ` followed by the list.
Whether the globs match files is not modelled; with `allowEmpty` a glob that
matches nothing is no error. -/
def gulpSrc (globs : List String) : Except String (List String) :=
  if globs ≠ [] ∧ "" ∉ globs then .ok globs
  else .error ("Invalid glob argument: " ++ String.intercalate "," globs)

/-- What `build:copy:essentials` writes. -/
structure EssentialsOutput where
  /-- Destination directory of the copied files and of `package.json`. -/
  dest : String
  /-- The globs handed to `gulp.src`. -/
  copied : List String
  /-- Content of the generated `package.json`. -/
  descriptor : PackageJson
  /-- The entry stub, for a command-line project only. -/
  bin : Option BinStub

/-- The task `build:copy:essentials`, for the working directory `cwd`. The
task throws, before anything is written, when `gulp.src` rejects the list
`(config.copy || []).map(...)`, as it does for an empty or missing
`config.copy`. Failures of the file system are not modelled. -/
def buildCopyEssentials (cwd : String) (config : Config) (packageJson : PackageJson) :
    Except String EssentialsOutput :=
  match gulpSrc (config.copy.map (fun copyFile => path.join [cwd, copyFile])) with
  | .error e => .error e
  | .ok copied =>
    .ok
      { dest := path.join [cwd, config.dist]
        copied := copied
        descriptor := packageDescriptor config packageJson
        bin :=
          if !config.compiler.cliProject then none
          else some
            { dir := path.join [cwd, config.dist, "bin"]
              file := templateString (packageJson.get "name") ++ ".js"
              packageName := packageJson.get "name"
              mode := 0o755 } }

/-! ## The task `build:bundle` -/

/-- Removal of duplicates that keeps the first occurrence of each name. -/
def dedupeInsertionOrder (names : List String) : List String :=
  names.foldl (fun acc name => if name ∈ acc then acc else acc ++ [name]) []

/-- Modelled from the spec: `extractBundleExternals` is defined in
`build-util`, which is not among the sources. By §4.5 the externals are the
configured externals list, unioned with the keys of the globals mapping when
`mapExternals` is set, duplicates removed in insertion order. -/
def extractBundleExternals (config : Config) : List String :=
  dedupeInsertionOrder
    (if config.bundle.mapExternals then
      config.bundle.externals ++ config.bundle.globals.map Prod.fst
    else config.bundle.externals)

/-- A stage of a plugin list, tagged with the helper call that produced
it; `π` is the type of rollup plugin objects. -/
inductive Stage (π : Type) where
  /-- The value of `rollupStyleBuildPlugin(...)`. -/
  | styleBuild (p : π)
  /-- An element of `preBundlePlugins(config)`. -/
  | preBundle (p : π)
  /-- An element of `resolvePlugins(config)`. -/
  | resolve (p : π)
  /-- An element of `buildPlugin(...)`. -/
  | build (p : π)
  /-- The value of `rollupUglify(...)`. -/
  | uglify (p : π)
  /-- An element of `postBundlePlugins()`. -/
  | postBundle (p : π)
  deriving DecidableEq

/-- The collaborators of `build:bundle` that are not among the sources: the
process, the `typescript` module and the helpers of `./build-util`. `π` is the
type of plugin objects, `β` of the base rollup configuration, `τ` of the
`typescript` module. -/
structure Env (π β τ : Type) where
  /-- The value of `process.cwd()`. -/
  cwd : String
  /-- The value of `require('typescript')`. -/
  typescript : τ
  getBanner : Config → PackageJson → String
  getBaseConfig : Config → PackageJson → String → β
  /-- Arguments: `config, packageJson, watch, minify, main`. -/
  rollupStyleBuildPlugin : Config → PackageJson → Bool → Bool → Bool → π
  preBundlePlugins : Config → List π
  resolvePlugins : Config → List π
  /-- Arguments in call order: the target name, two flags, `config`, the
  `typescript` module. -/
  buildPlugin : String → Bool → Bool → Config → τ → List π
  postBundlePlugins : List π
  /-- The uglify plugin for a given `output.comments` pattern. -/
  rollupUglify : String → π
  /-- The value of `NodeBundleFormat.es`. -/
  esFormat : String

/-- The `output` object of a target's overrides; a field that the object
literal does not set, or sets to `undefined`, is `none`. -/
structure OutputOptions where
  amd : Option AmdConfig
  file : String
  format : String
  globals : Option (List (String × String))
  name : Option String
  deriving DecidableEq

/-- The target-specific object literal passed to `merge` as last argument. -/
structure Overrides (π : Type) where
  external : List String
  output : OutputOptions
  plugins : List (Stage π)

/-- The rollup configuration handed to the build engine. -/
structure RollupConfig (π β : Type) where
  base : β
  external : List String
  output : OutputOptions
  plugins : List (Stage π)

/-- Modelled from the spec: lodash's `merge` and the base object of
`getBaseConfig` are not among the sources. By §4.1 (c) the merged
configuration is the shared base configuration together with the
target-specific overrides (external list, output descriptor, plugin list). -/
def merge {π β : Type} (baseConfig : β) (overrides : Overrides π) : RollupConfig π β :=
  { base := baseConfig
    external := overrides.external
    output := overrides.output
    plugins := overrides.plugins }

section Targets

variable {π β τ : Type}

/-- The constant `baseConfig` of the task. -/
def baseConfig (env : Env π β τ) (config : Config) (packageJson : PackageJson) : β :=
  env.getBaseConfig config packageJson (env.getBanner config packageJson)

/-- The overrides of the flat bundle. -/
def flatOverrides (env : Env π β τ) (config : Config) (packageJson : PackageJson) :
    Overrides π :=
  { external := extractBundleExternals config
    output :=
      { amd := config.output.amd
        file := path.join [env.cwd, config.dist, "bundle",
          templateString (packageJson.get "name") ++ ".js"]
        format := config.output.format
        globals := some config.bundle.globals
        name := config.output.namespace_ }
    plugins :=
      [Stage.styleBuild (env.rollupStyleBuildPlugin config packageJson false false true)]
        ++ (env.preBundlePlugins config).map Stage.preBundle
        ++ (env.resolvePlugins config).map Stage.resolve
        ++ (env.buildPlugin "bundle" true true config env.typescript).map Stage.build
        ++ env.postBundlePlugins.map Stage.postBundle }

/-- The overrides of the minified flat bundle. -/
def minifiedFlatOverrides (env : Env π β τ) (config : Config) (packageJson : PackageJson) :
    Overrides π :=
  { external := extractBundleExternals config
    output :=
      { amd := config.output.amd
        file := path.join [env.cwd, config.dist, "bundle",
          templateString (packageJson.get "name") ++ ".min.js"]
        format := config.output.format
        globals := some config.bundle.globals
        name := config.output.namespace_ }
    plugins :=
      [Stage.styleBuild (env.rollupStyleBuildPlugin config packageJson false true true)]
        ++ (env.preBundlePlugins config).map Stage.preBundle
        ++ (env.resolvePlugins config).map Stage.resolve
        ++ (env.buildPlugin "bundle" false true config env.typescript).map Stage.build
        ++ [Stage.uglify (env.rollupUglify "@preserve|@license")]
        ++ env.postBundlePlugins.map Stage.postBundle }

/-- The overrides of the FESM+ES5 flat module bundle. -/
def fesm5Overrides (env : Env π β τ) (config : Config) (packageJson : PackageJson) :
    Overrides π :=
  { external := config.bundle.externals
    output :=
      { amd := none
        file := path.join [env.cwd, config.dist, "fesm5",
          templateString (packageJson.get "name") ++ ".js"]
        format := env.esFormat
        globals := none
        name := none }
    plugins :=
      [Stage.styleBuild (env.rollupStyleBuildPlugin config packageJson false true false)]
        ++ (env.preBundlePlugins config).map Stage.preBundle
        ++ (env.buildPlugin "es5" false true config env.typescript).map Stage.build
        ++ env.postBundlePlugins.map Stage.postBundle }

/-- The overrides of the FESM+ESNEXT flat module bundle. -/
def fesm2015Overrides (env : Env π β τ) (config : Config) (packageJson : PackageJson) :
    Overrides π :=
  { external := config.bundle.externals
    output :=
      { amd := none
        file := path.join [env.cwd, config.dist, "fesmnext",
          templateString (packageJson.get "name") ++ ".js"]
        format := env.esFormat
        globals := none
        name := none }
    plugins :=
      [Stage.styleBuild (env.rollupStyleBuildPlugin config packageJson false true false)]
        ++ (env.preBundlePlugins config).map Stage.preBundle
        ++ (env.buildPlugin "esnext" false true config env.typescript).map Stage.build
        ++ env.postBundlePlugins.map Stage.postBundle }

/-- The constant `flatConfig`. -/
def flatConfig (env : Env π β τ) (config : Config) (packageJson : PackageJson) :
    RollupConfig π β :=
  merge (baseConfig env config packageJson) (flatOverrides env config packageJson)

/-- The constant `minifiedFlatConfig`. -/
def minifiedFlatConfig (env : Env π β τ) (config : Config) (packageJson : PackageJson) :
    RollupConfig π β :=
  merge (baseConfig env config packageJson) (minifiedFlatOverrides env config packageJson)

/-- The constant `fesm5config`. -/
def fesm5config (env : Env π β τ) (config : Config) (packageJson : PackageJson) :
    RollupConfig π β :=
  merge (baseConfig env config packageJson) (fesm5Overrides env config packageJson)

/-- The constant `fesm2015config`. -/
def fesm2015config (env : Env π β τ) (config : Config) (packageJson : PackageJson) :
    RollupConfig π β :=
  merge (baseConfig env config packageJson) (fesm2015Overrides env config packageJson)

end Targets

/-- One call of `bundleBuild`: its two arguments and whether it threw. -/
structure Invocation (π β : Type) where
  config : RollupConfig π β
  label : String
  threw : Bool

/-- The state threaded through the task: the world the build engine acts on
and the calls of `bundleBuild` made so far, oldest first. -/
structure TaskState (π β σ : Type) where
  world : σ
  calls : List (Invocation π β)

/-- What a gulp task function returns. -/
inductive JsReturn where
  | undefined
  | null
  deriving DecidableEq

section Task

variable {π β τ σ ε : Type}

/-- The statement `await bundleBuild(config, label)`: the engine runs on the
current world, the call is recorded, and its exception, if any, is passed on. -/
def awaitBundleBuild (bundleBuild : RollupConfig π β → String → σ → Except ε Unit × σ)
    (config : RollupConfig π β) (label : String) (st : TaskState π β σ) :
    Except ε Unit × TaskState π β σ :=
  match bundleBuild config label st.world with
  | (.ok _, world) =>
    (.ok (), { world := world, calls := st.calls ++ [{ config, label, threw := false }] })
  | (.error e, world) =>
    (.error e, { world := world, calls := st.calls ++ [{ config, label, threw := true }] })

/-- The body of the `try` block of `build:bundle`. An exception leaves the
block at the call that raised it. -/
def buildBundleTry (env : Env π β τ)
    (bundleBuild : RollupConfig π β → String → σ → Except ε Unit × σ)
    (config : Config) (packageJson : PackageJson) (st : TaskState π β σ) :
    Except ε Unit × TaskState π β σ :=
  match awaitBundleBuild bundleBuild (flatConfig env config packageJson) "FLAT" st with
  | (.error e, st) => (.error e, st)
  | (.ok _, st) =>
    match
      (if config.output.minBundle then
        awaitBundleBuild bundleBuild (minifiedFlatConfig env config packageJson) "FLAT MIN" st
      else (.ok (), st)) with
    | (.error e, st) => (.error e, st)
    | (.ok _, st) =>
      match
        (if config.output.es5 then
          awaitBundleBuild bundleBuild (fesm5config env config packageJson) "ES5" st
        else (.ok (), st)) with
      | (.error e, st) => (.error e, st)
      | (.ok _, st) =>
        if config.output.es2015 then
          awaitBundleBuild bundleBuild (fesm2015config env config packageJson) "ESNEXT" st
        else (.ok (), st)

/-- The outcome of running `build:bundle`. -/
structure BundleRun (π β σ ε : Type) where
  /-- The value the task function completes with, or the exception it lets
  escape. -/
  result : Except ε JsReturn
  /-- The error printed by the `catch` block. -/
  logged : Option ε
  /-- The world after the run. -/
  world : σ
  /-- The calls of `bundleBuild`, oldest first. -/
  calls : List (Invocation π β)

/-- The task `build:bundle`: the `try` block, and the `catch` block that
logs the error and returns `null`. -/
def buildBundle (env : Env π β τ)
    (bundleBuild : RollupConfig π β → String → σ → Except ε Unit × σ)
    (config : Config) (packageJson : PackageJson) (world : σ) : BundleRun π β σ ε :=
  match buildBundleTry env bundleBuild config packageJson { world := world, calls := [] } with
  | (.ok _, st) =>
    { result := .ok .undefined, logged := none, world := st.world, calls := st.calls }
  | (.error e, st) =>
    { result := .ok .null, logged := some e, world := st.world, calls := st.calls }

/-- The series `build`, after `build:clean`: `build:copy:essentials`, then
`build:bundle`. A series stops at the first task that fails, so that
`build:bundle` does not run (`none`) when `build:copy:essentials` throws. -/
def build (env : Env π β τ)
    (bundleBuild : RollupConfig π β → String → σ → Except ε Unit × σ)
    (config : Config) (packageJson : PackageJson) (world : σ) :
    Except String EssentialsOutput × Option (BundleRun π β σ ε) :=
  match buildCopyEssentials env.cwd config packageJson with
  | .error e => (.error e, none)
  | .ok written => (.ok written, some (buildBundle env bundleBuild config packageJson world))

/-- The calls of `bundleBuild` written in the task, in program order, each
under its enablement test: the flat bundle unconditionally, then the
minified flat bundle, the ES5 and the ESNEXT flat modules. -/
def plannedTargets (env : Env π β τ) (config : Config) (packageJson : PackageJson) :
    List (RollupConfig π β × String) :=
  [(flatConfig env config packageJson, "FLAT")]
    ++ (if config.output.minBundle then [(minifiedFlatConfig env config packageJson, "FLAT MIN")]
      else [])
    ++ (if config.output.es5 then [(fesm5config env config packageJson, "ES5")] else [])
    ++ (if config.output.es2015 then [(fesm2015config env config packageJson, "ESNEXT")] else [])

end Task

/-! ## The task `generate`: validation of the answers -/

/-- A regular expression, as far as the patterns of `generate.ts` need it.
`never` matches no string; it arises only while matching. -/
inductive RegExp where
  | never
  | empty
  | char (c : Char)
  | cls (p : Char → Bool)
  | seq (r s : RegExp)
  | alt (r s : RegExp)
  | star (r : RegExp)

namespace RegExp

/-- The quantifier `r?`. -/
def opt (r : RegExp) : RegExp := alt r empty

/-- The quantifier `r+`. -/
def plus (r : RegExp) : RegExp := seq r (star r)

/-- Whether the expression matches the empty string. -/
def nullable : RegExp → Bool
  | never => false
  | empty => true
  | char _ => false
  | cls _ => false
  | seq r s => nullable r && nullable s
  | alt r s => nullable r || nullable s
  | star _ => true

/-- The expression for what may follow the character `c` in a match. -/
def deriv : RegExp → Char → RegExp
  | never, _ => never
  | empty, _ => never
  | char d, c => if c = d then empty else never
  | cls p, c => if p c then empty else never
  | seq r s, c => if nullable r then alt (seq (deriv r c) s) (deriv s c) else seq (deriv r c) s
  | alt r s, c => alt (deriv r c) (deriv s c)
  | star r, c => seq (deriv r c) (star r)

/-- Whether the whole of `value` matches the expression: the result of
`!!value.match(/^r$/)`. -/
def test (r : RegExp) (value : String) : Bool :=
  nullable (value.data.foldl deriv r)

/-- The strings an expression matches. -/
inductive Matches : RegExp → List Char → Prop
  | empty : Matches .empty []
  | char (c : Char) : Matches (.char c) [c]
  | cls (p : Char → Bool) (c : Char) (h : p c = true) : Matches (.cls p) [c]
  | seq {r s : RegExp} {u v : List Char} : Matches r u → Matches s v → Matches (.seq r s) (u ++ v)
  | altLeft {r s : RegExp} {u : List Char} : Matches r u → Matches (.alt r s) u
  | altRight {r s : RegExp} {u : List Char} : Matches s u → Matches (.alt r s) u
  | starNil {r : RegExp} : Matches (.star r) []
  | starCons {r : RegExp} {u v : List Char} :
    Matches r u → Matches (.star r) v → Matches (.star r) (u ++ v)

end RegExp

/-- The class `[a-z]` under the flag `i`: the ASCII letters. -/
def isAsciiLetter (c : Char) : Bool :=
  ('a' ≤ c && c ≤ 'z') || ('A' ≤ c && c ≤ 'Z')

/-- The class `\d`: the ASCII digits. -/
def isAsciiDigit (c : Char) : Bool :=
  '0' ≤ c && c ≤ '9'

/-- The pattern `/^(?:[a-z]\d*(?:-[a-z])?)*$/i` of the `amdId` question. -/
def amdIdPattern : RegExp :=
  .star (.seq (.cls isAsciiLetter)
    (.seq (.star (.cls isAsciiDigit)) (.opt (.seq (.char '-') (.cls isAsciiLetter)))))

/-- The pattern `/^(?:[a-z]\d*(?:\.[a-z])?)+$/i` of the `namespace` question. -/
def namespacePattern : RegExp :=
  .plus (.seq (.cls isAsciiLetter)
    (.seq (.star (.cls isAsciiDigit)) (.opt (.seq (.char '.') (.cls isAsciiLetter)))))

/-- What a `validate` function returns: `true`, or the message shown to the
user. -/
inductive Validation where
  | accepted
  | rejected (message : String)
  deriving DecidableEq

/-- The `validate` function of the `amdId` question. -/
def amdIdValidate (value : String) : Validation :=
  if value = "" ∨ amdIdPattern.test value = true then .accepted
  else .rejected "AMD id should only contain alphabetic characters, i.e: 'my-bundle'"

/-- The `validate` function of the `namespace` question. -/
def namespaceValidate (value : String) : Validation :=
  if namespacePattern.test value = true then .accepted
  else .rejected "Namespace should be an object path, i.e: 'ys.nml.lib'"

/-- An object path: a dot-separated sequence of one or more non-empty
segments of ASCII letters. -/
def isObjectPath (value : String) : Bool :=
  (value.data.splitOn '.').all (fun segment => segment ≠ [] && segment.all isAsciiLetter)

/-! ## Sample inputs -/

/-- A plain environment: plugins are strings. -/
def sampleEnv : Env String Unit Unit :=
  { cwd := "/work"
    typescript := ()
    getBanner := fun _ _ => "banner"
    getBaseConfig := fun _ _ _ => ()
    rollupStyleBuildPlugin := fun _ _ _ _ _ => "postcss"
    preBundlePlugins := fun _ => ["replace", "ignore"]
    resolvePlugins := fun _ => ["node-resolve", "commonjs"]
    buildPlugin := fun name _ _ _ _ => ["babel-" ++ name]
    postBundlePlugins := ["progress", "filesize"]
    rollupUglify := fun _ => "uglify"
    esFormat := "es" }

/-- A configuration with all four targets enabled and globals mapped to
externals. -/
def sampleConfig : Config :=
  { dist := "dist"
    copy := ["README.md", "LICENSE"]
    compiler := { cliProject := true, scriptPreprocessor := "none" }
    output :=
      { es5 := true
        es2015 := true
        minBundle := true
        dependencyMapMode := "cross-map-peer-dependency"
        amd := some { define := "", id := "my-lib" }
        format := "umd"
        namespace_ := some "com.lib" }
    bundle := { externals := ["a"], globals := [("b", "B")], mapExternals := true } }

/-- A source `package.json` without a `bin` entry. -/
def samplePackage : PackageJson :=
  [("name", .str "my-lib"), ("version", .str "1.0.0"), ("main", .str "index.js"),
    ("scripts", .obj [("build", .str "packer build")]),
    ("dependencies", .obj [("lodash", .str "^4.17.0")]),
    ("peerDependencies", .obj [("react", .str "^16.0.0")])]

/-- The sample source with other values in the fields that are not copied,
and a `devDependencies` field in addition. -/
def samplePackageOther : PackageJson :=
  [("name", .str "my-lib"), ("version", .str "1.0.0"), ("main", .str "lib/entry.js"),
    ("scripts", .obj []), ("devDependencies", .obj [("mocha", .str "^5.0.0")]),
    ("dependencies", .obj [("lodash", .str "^4.17.0")]),
    ("peerDependencies", .obj [("react", .str "^16.0.0")])]

/-- A source `package.json` whose name climbs out of its directory. -/
def climbingPackage : PackageJson :=
  [("name", .str "../a"), ("version", .str "1.0.0")]

/-- The call of the sample build that fails when the engine fails on ES5. -/
def sampleFailedCall : Invocation String Unit :=
  { config := fesm5config sampleEnv sampleConfig samplePackage, label := "ES5", threw := true }

/-- A build engine that never fails; the world counts the calls. -/
def alwaysOk : RollupConfig String Unit → String → Nat → Except String Unit × Nat :=
  fun _ _ n => (.ok (), n + 1)

/-- A build engine that fails on the target with the given label and
succeeds on every other one; the world counts the calls. -/
def failingOn (bad : String) : RollupConfig String Unit → String → Nat → Except String Unit × Nat :=
  fun _ label n => if label = bad then (.error ("failed: " ++ label), n + 1) else (.ok (), n + 1)

/-- Whether a stage is a module-resolution stage. -/
def Stage.isResolve {π : Type} : Stage π → Bool
  | .resolve _ => true
  | _ => false

/-- Whether a stage is the minification stage. -/
def Stage.isUglify {π : Type} : Stage π → Bool
  | .uglify _ => true
  | _ => false

/-- The position of a stage category in the order: style bundling,
pre-bundle, module resolution, transform, minification, post-bundle. -/
def Stage.rank {π : Type} : Stage π → Nat
  | .styleBuild _ => 0
  | .preBundle _ => 1
  | .resolve _ => 2
  | .build _ => 3
  | .uglify _ => 4
  | .postBundle _ => 5

/-- The configuration with another dependency-map mode. -/
def withMode (config : Config) (mode : String) : Config :=
  { config with output := { config.output with dependencyMapMode := mode } }

/-! ## Objects: reading, writing and serializing -/

theorem PackageJson.get_eq_none_iff (d : PackageJson) (k : String) :
    d.get k = none ↔ k ∉ d.keys := by
  induction d with
  | nil => simp [PackageJson.get, PackageJson.keys]
  | cons p d ih =>
    obtain ⟨k', v⟩ := p
    simp only [PackageJson.get, PackageJson.keys, List.map_cons, List.mem_cons, not_or] at ih ⊢
    by_cases h : k = k'
    · subst h
      simp [List.lookup]
    · have h' : (k == k') = false := by simpa using h
      simp [List.lookup, h', h, ih]

theorem JsObject.get_set (o : JsObject) (k : String) (v : Option Json) (k' : String) :
    (o.set k v).get k' = if k' = k then v else o.get k' := by
  induction o with
  | nil =>
    by_cases h : k' = k
    · subst h
      simp [JsObject.set, JsObject.get, List.lookup]
    · have h' : (k' == k) = false := by simpa using h
      simp [JsObject.set, JsObject.get, List.lookup, h, h']
  | cons p o ih =>
    obtain ⟨k₁, v₁⟩ := p
    simp only [JsObject.get] at ih
    by_cases h₁ : k₁ = k
    · subst h₁
      by_cases h : k' = k₁
      · subst h
        simp [JsObject.set, JsObject.get, List.lookup]
      · have h' : (k' == k₁) = false := by simpa using h
        simp [JsObject.set, JsObject.get, List.lookup, h, h']
    · by_cases h : k' = k₁
      · subst h
        have h₂ : ¬ k' = k := h₁
        simp [JsObject.set, JsObject.get, List.lookup, h₁, h₂]
      · have h' : (k' == k₁) = false := by simpa using h
        simpa [JsObject.set, JsObject.get, List.lookup, h₁, h'] using ih

theorem JsObject.keys_set (o : JsObject) (k : String) (v : Option Json) :
    (o.set k v).map Prod.fst =
      if k ∈ o.map Prod.fst then o.map Prod.fst else o.map Prod.fst ++ [k] := by
  induction o with
  | nil => simp [JsObject.set]
  | cons p o ih =>
    obtain ⟨k₁, v₁⟩ := p
    by_cases h₁ : k₁ = k
    · subst h₁
      simp [JsObject.set]
    · have h₂ : ¬ k = k₁ := fun h => h₁ h.symm
      by_cases hm : k ∈ o.map Prod.fst
      · simp only [JsObject.set, h₁, if_false, List.map_cons, ih, hm, if_true, List.mem_cons,
          or_true]
      · simp only [JsObject.set, h₁, if_false, List.map_cons, ih, hm, List.mem_cons, h₂,
          or_self, List.cons_append]

theorem JsObject.nodup_keys_set (o : JsObject) (k : String) (v : Option Json)
    (h : (o.map Prod.fst).Nodup) : ((o.set k v).map Prod.fst).Nodup := by
  rw [JsObject.keys_set]
  split
  · exact h
  · rename_i hk
    exact List.Nodup.append h (List.nodup_singleton k) (by simpa using hk)

theorem jsonStringifyProps_get (o : JsObject) (k : String) (h : (o.map Prod.fst).Nodup) :
    (jsonStringifyProps o).get k = o.get k := by
  induction o with
  | nil => simp [jsonStringifyProps, PackageJson.get, JsObject.get]
  | cons p o ih =>
    obtain ⟨k₁, v₁⟩ := p
    simp only [List.map_cons, List.nodup_cons] at h
    have ih' := ih h.2
    simp only [jsonStringifyProps, PackageJson.get, JsObject.get] at ih' ⊢
    by_cases hk : k = k₁
    · subst hk
      cases v₁ with
      | none =>
        have hn : List.lookup k o = none := by
          rw [List.lookup_eq_none_iff]
          intro p hp
          have hne : k ≠ p.1 := fun hpk => h.1 (List.mem_map.mpr ⟨p, hp, hpk.symm⟩)
          simpa using hne
        simp [List.filterMap_cons, List.lookup, ih', hn]
      | some w => simp [List.filterMap_cons, List.lookup]
    · have hk' : (k == k₁) = false := by simpa using hk
      cases v₁ with
      | none => simp [List.filterMap_cons, List.lookup, hk', ih']
      | some w => simp [List.filterMap_cons, List.lookup, hk', ih']

theorem JsObject.nodup_keys_foldl_set (fields : List String) (f : String → Option Json)
    (o : JsObject) (h : (o.map Prod.fst).Nodup) :
    ((fields.foldl (fun t field => t.set field (f field)) o).map Prod.fst).Nodup := by
  induction fields generalizing o with
  | nil => simpa using h
  | cons x xs ih => exact ih _ (JsObject.nodup_keys_set o x (f x) h)

theorem targetPackage_nodup_keys (config : Config) (packageJson : PackageJson) :
    ((targetPackage config packageJson).map Prod.fst).Nodup := by
  unfold targetPackage
  have h0 := JsObject.nodup_keys_foldl_set fieldsToCopy (fun field => packageJson.get field) []
    (by simp)
  simp only []
  generalize List.foldl (fun t field => JsObject.set t field (packageJson.get field)) []
    fieldsToCopy = copied at h0 ⊢
  repeat' split
  all_goals
    repeat' apply JsObject.nodup_keys_set
    exact h0

/-- Reading a field of the written descriptor is reading the property of
`targetPackage`. -/
theorem packageDescriptor_get (config : Config) (packageJson : PackageJson) (k : String) :
    (packageDescriptor config packageJson).get k = (targetPackage config packageJson).get k :=
  jsonStringifyProps_get _ k (targetPackage_nodup_keys config packageJson)

theorem JsObject.get_nil (k : String) : JsObject.get [] k = none := rfl


/-- The `dependencies` property of `targetPackage`, by mode. -/
theorem targetPackage_get_dependencies (config : Config) (packageJson : PackageJson) :
    (targetPackage config packageJson).get "dependencies" =
      match DependencyMap.ofMode config.output.dependencyMapMode with
      | some .crossMapDependency => packageJson.get "peerDependencies"
      | some .mapDependency => packageJson.get "dependencies"
      | some .all => packageJson.get "dependencies"
      | _ => none := by
  simp only [targetPackage, fieldsToCopy, List.foldl]
  repeat' split
  all_goals simp_all [JsObject.get_set, JsObject.get_nil]

/-- The `peerDependencies` property of `targetPackage`, by mode. -/
theorem targetPackage_get_peerDependencies (config : Config) (packageJson : PackageJson) :
    (targetPackage config packageJson).get "peerDependencies" =
      match DependencyMap.ofMode config.output.dependencyMapMode with
      | some .crossMapPeerDependency => packageJson.get "dependencies"
      | some .mapPeerDependency => packageJson.get "peerDependencies"
      | some .all => packageJson.get "peerDependencies"
      | _ => none := by
  simp only [targetPackage, fieldsToCopy, List.foldl]
  repeat' split
  all_goals simp_all [JsObject.get_set, JsObject.get_nil]

theorem JsObject.get_foldl_set (fields : List String) (f : String → Option Json)
    (o : JsObject) (k : String) :
    (fields.foldl (fun t field => t.set field (f field)) o).get k =
      if k ∈ fields then f k else o.get k := by
  induction fields generalizing o with
  | nil => simp
  | cons x xs ih =>
    rw [List.foldl_cons, ih, JsObject.get_set]
    by_cases hx : k = x
    · subst hx
      simp
    · by_cases hxs : k ∈ xs
      · simp [hxs]
      · simp [hx, hxs]

/-- A key that the task does not compute reads as the copied source field
if it is whitelisted, and as `undefined` otherwise. -/
theorem targetPackage_get_of_not_computed (config : Config) (packageJson : PackageJson)
    (k : String)
    (h : k ∉ ["bin", "main", "typings", "module", "fesm5", "esnext", "fesmnext", "dependencies",
      "peerDependencies"]) :
    (targetPackage config packageJson).get k =
      if k ∈ fieldsToCopy then packageJson.get k else none := by
  simp only [List.mem_cons, List.mem_singleton, not_or, List.not_mem_nil, or_false] at h
  obtain ⟨h₁, h₂, h₃, h₄, h₅, h₆, h₇, h₈, h₉⟩ := h
  have h0 := JsObject.get_foldl_set fieldsToCopy (fun field => packageJson.get field) [] k
  simp only [JsObject.get_nil] at h0
  unfold targetPackage
  simp only []
  generalize List.foldl (fun t field => JsObject.set t field (packageJson.get field)) []
    fieldsToCopy = copied at h0 ⊢
  split <;>
    simp only [JsObject.get_set, apply_ite (fun o => JsObject.get o k), h₁, h₂, h₃, h₄, h₅, h₆,
      h₇, h₈, h₉, if_false, ite_self, h0]

/-- The path fields that the task computes. -/
theorem targetPackage_get_paths (config : Config) (packageJson : PackageJson) :
    (targetPackage config packageJson).get "main" =
        some (.str (path.join ["bundle", templateString (packageJson.get "name") ++ ".js"]))
      ∧ (targetPackage config packageJson).get "module" =
        (if config.output.es5 then
          some (.str (path.join ["fesm5", templateString (packageJson.get "name") ++ ".js"]))
        else none)
      ∧ (targetPackage config packageJson).get "fesm5" =
        (if config.output.es5 then
          some (.str (path.join ["fesm5", templateString (packageJson.get "name") ++ ".js"]))
        else none)
      ∧ (targetPackage config packageJson).get "esnext" =
        (if config.output.es2015 then
          some (.str (path.join ["fesmnext", templateString (packageJson.get "name") ++ ".js"]))
        else none)
      ∧ (targetPackage config packageJson).get "fesmnext" =
        (if config.output.es2015 then
          some (.str (path.join ["fesmnext", templateString (packageJson.get "name") ++ ".js"]))
        else none) := by
  have h₁ := JsObject.get_foldl_set fieldsToCopy (fun field => packageJson.get field) [] "main"
  have h₂ := JsObject.get_foldl_set fieldsToCopy (fun field => packageJson.get field) [] "module"
  have h₃ := JsObject.get_foldl_set fieldsToCopy (fun field => packageJson.get field) [] "fesm5"
  have h₄ := JsObject.get_foldl_set fieldsToCopy (fun field => packageJson.get field) [] "esnext"
  have h₅ := JsObject.get_foldl_set fieldsToCopy (fun field => packageJson.get field) []
    "fesmnext"
  simp only [JsObject.get_nil, fieldsToCopy] at h₁ h₂ h₃ h₄ h₅
  simp only [show ("main" ∈ ["name", "version", "description", "keywords", "author",
      "repository", "license", "bugs", "homepage"]) = False by decide,
    show ("module" ∈ ["name", "version", "description", "keywords", "author",
      "repository", "license", "bugs", "homepage"]) = False by decide,
    show ("fesm5" ∈ ["name", "version", "description", "keywords", "author",
      "repository", "license", "bugs", "homepage"]) = False by decide,
    show ("esnext" ∈ ["name", "version", "description", "keywords", "author",
      "repository", "license", "bugs", "homepage"]) = False by decide,
    show ("fesmnext" ∈ ["name", "version", "description", "keywords", "author",
      "repository", "license", "bugs", "homepage"]) = False by decide, if_false]
    at h₁ h₂ h₃ h₄ h₅
  unfold targetPackage
  simp only [fieldsToCopy]
  generalize List.foldl (fun t field => JsObject.set t field (packageJson.get field)) []
    ["name", "version", "description", "keywords", "author", "repository", "license", "bugs",
      "homepage"] = copied at h₁ h₂ h₃ h₄ h₅ ⊢
  by_cases hts : config.compiler.scriptPreprocessor = ScriptPreprocessor.typescript <;>
    cases config.output.es5 <;> cases config.output.es2015 <;>
    cases config.compiler.cliProject <;> split <;>
    simp [JsObject.get_set, hts, h₁, h₂, h₃, h₄, h₅]

theorem templateString_js (v : Option Json) :
    templateString v ++ ".js" = (templateString v ++ ".j") ++ "s" := by
  rw [String.append_assoc]
  rfl

/-! ## Properties of `path.join` -/

namespace path

theorem splitSlash_ne_nil (p : List Char) : splitSlash p ≠ [] := by
  cases p with
  | nil => simp [splitSlash]
  | cons c cs =>
    unfold splitSlash
    split
    · simp
    · split <;> simp

theorem splitSlash_append_slash (u v : List Char) :
    splitSlash (u ++ '/' :: v) = splitSlash u ++ splitSlash v := by
  induction u with
  | nil => simp [splitSlash]
  | cons c u ih =>
    by_cases hc : c = '/'
    · simp [splitSlash, hc, ih]
    · rcases hu : splitSlash u with _ | ⟨seg, segs⟩
      · exact absurd hu (splitSlash_ne_nil u)
      · simp [splitSlash, hc, ih, hu]

theorem splitSlash_of_not_mem (p : List Char) (h : '/' ∉ p) : splitSlash p = [p] := by
  induction p with
  | nil => rfl
  | cons c cs ih =>
    simp only [List.mem_cons, not_or] at h
    have hc : ¬ c = '/' := fun e => h.1 e.symm
    simp [splitSlash, hc, ih h.2]

theorem not_mem_of_mem_splitSlash (p : List Char) :
    ∀ seg ∈ splitSlash p, '/' ∉ seg := by
  induction p with
  | nil => simp [splitSlash]
  | cons c cs ih =>
    by_cases hc : c = '/'
    · simpa [splitSlash, hc] using ih
    · rcases hu : splitSlash cs with _ | ⟨seg, segs⟩
      · exact absurd hu (splitSlash_ne_nil cs)
      · rw [hu] at ih
        have hc' : ¬ '/' = c := fun e => hc e.symm
        simp only [List.mem_cons, forall_eq_or_imp] at ih
        simp [splitSlash, hc, hu, hc', ih.1]
        exact ih.2

theorem splitSlash_append_char (q : List Char) (ch : Char) (h : ch ≠ '/') :
    ∃ init last, splitSlash q = init ++ [last] ∧
      splitSlash (q ++ [ch]) = init ++ [last ++ [ch]] := by
  induction q with
  | nil => exact ⟨[], [], by simp [splitSlash], by simp [splitSlash, h]⟩
  | cons c cs ih =>
    obtain ⟨init, last, h₁, h₂⟩ := ih
    by_cases hc : c = '/'
    · exact ⟨[] :: init, last, by simp [splitSlash, hc, h₁], by simp [splitSlash, hc, h₂]⟩
    · cases init with
      | nil =>
        refine ⟨[], c :: last, ?_, ?_⟩
        · simp [splitSlash, hc, h₁]
        · have h₂' : splitSlash (cs ++ [ch]) = [last ++ [ch]] := by simpa using h₂
          simp [splitSlash, hc, h₂']
      | cons s ss =>
        refine ⟨(c :: s) :: ss, last, ?_, ?_⟩
        · simp [splitSlash, hc, h₁]
        · have h₂' : splitSlash (cs ++ [ch]) = s :: (ss ++ [last ++ [ch]]) := by simpa using h₂
          simp [splitSlash, hc, h₂']

theorem intercalate_singleton (x : List Char) : ['/'].intercalate [x] = x := by
  simp [List.intercalate, List.intersperse]

theorem intercalate_cons_cons (x y : List Char) (r : List (List Char)) :
    ['/'].intercalate (x :: y :: r) = x ++ '/' :: ['/'].intercalate (y :: r) := by
  simp [List.intercalate, List.intersperse]

theorem splitSlash_intercalate (segs : List (List Char)) (hne : segs ≠ [])
    (h : ∀ seg ∈ segs, '/' ∉ seg) : splitSlash (['/'].intercalate segs) = segs := by
  induction segs with
  | nil => exact absurd rfl hne
  | cons x r ih =>
    cases r with
    | nil =>
      rw [intercalate_singleton]
      exact splitSlash_of_not_mem x (h x (by simp))
    | cons y r =>
      rw [intercalate_cons_cons, splitSlash_append_slash,
        splitSlash_of_not_mem x (h x (by simp)),
        ih (by simp) (fun seg hseg => h seg (List.mem_cons_of_mem _ hseg))]
      rfl

theorem intercalate_append_singleton (segs : List (List Char)) (w : List Char) :
    ['/'].intercalate (segs ++ [w]) =
      if segs = [] then w else ['/'].intercalate segs ++ '/' :: w := by
  induction segs with
  | nil => simp [intercalate_singleton]
  | cons x r ih =>
    cases r with
    | nil => simp [intercalate_cons_cons, intercalate_singleton]
    | cons y r =>
      simp only [List.cons_append] at ih ⊢
      rw [intercalate_cons_cons, ih, intercalate_cons_cons]
      simp

theorem normalizeStep_of_proper (a : Bool) (res : List (List Char)) (seg : List Char)
    (h₁ : seg ≠ []) (h₂ : seg ≠ ['.']) (h₃ : seg ≠ ['.', '.']) :
    normalizeStep a res seg = res ++ [seg] := by
  simp [normalizeStep, h₁, h₂, h₃]

/-- No segment of a result is empty or `.`. -/
theorem normalizeStep_noSkip (a : Bool) (res : List (List Char)) (seg : List Char)
    (h : ∀ s ∈ res, s ≠ [] ∧ s ≠ ['.']) :
    ∀ s ∈ normalizeStep a res seg, s ≠ [] ∧ s ≠ ['.'] := by
  unfold normalizeStep
  split
  · exact h
  · rename_i hskip
    split
    · split
      · intro s hs
        exact h s (List.mem_of_mem_dropLast hs)
      · split
        · intro s hs
          rcases List.mem_append.mp hs with hs | hs
          · exact h s hs
          · simp only [List.mem_singleton] at hs
            subst hs
            simp
        · exact h
    · intro s hs
      rcases List.mem_append.mp hs with hs | hs
      · exact h s hs
      · simp only [List.mem_singleton] at hs
        subst hs
        simpa [not_or] using hskip

theorem foldl_normalizeStep_noSkip (a : Bool) (segs : List (List Char))
    (res : List (List Char)) (h : ∀ s ∈ res, s ≠ [] ∧ s ≠ ['.']) :
    ∀ s ∈ segs.foldl (normalizeStep a) res, s ≠ [] ∧ s ≠ ['.'] := by
  induction segs generalizing res with
  | nil => simpa using h
  | cons x xs ih => exact ih _ (normalizeStep_noSkip a res x h)

/-- No segment of a result contains a separator. -/
theorem normalizeStep_noSlash (a : Bool) (res : List (List Char)) (seg : List Char)
    (h : ∀ s ∈ res, '/' ∉ s) (hseg : '/' ∉ seg) :
    ∀ s ∈ normalizeStep a res seg, '/' ∉ s := by
  unfold normalizeStep
  split
  · exact h
  · split
    · split
      · intro s hs
        exact h s (List.mem_of_mem_dropLast hs)
      · split
        · intro s hs
          rcases List.mem_append.mp hs with hs | hs
          · exact h s hs
          · simp only [List.mem_singleton] at hs
            subst hs
            decide
        · exact h
    · intro s hs
      rcases List.mem_append.mp hs with hs | hs
      · exact h s hs
      · simp only [List.mem_singleton] at hs
        subst hs
        exact hseg

theorem foldl_normalizeStep_noSlash (a : Bool) (segs : List (List Char))
    (res : List (List Char)) (h : ∀ s ∈ res, '/' ∉ s) (hsegs : ∀ s ∈ segs, '/' ∉ s) :
    ∀ s ∈ segs.foldl (normalizeStep a) res, '/' ∉ s := by
  induction segs generalizing res with
  | nil => simpa using h
  | cons x xs ih =>
    exact ih _ (normalizeStep_noSlash a res x h (hsegs x (by simp)))
      (fun s hs => hsegs s (List.mem_cons_of_mem _ hs))

/-- Feeding a segment after an already normalized relative list is feeding it
to the normalized list first. -/
theorem normalizeStep_foldl_normalized (a : Bool) (res t : List (List Char)) (x : List Char)
    (ht : ∀ s ∈ t, s ≠ [] ∧ s ≠ ['.']) :
    normalizeStep a (t.foldl (normalizeStep a) res) x =
      (normalizeStep true t x).foldl (normalizeStep a) res := by
  by_cases hskip : x = [] ∨ x = ['.']
  · simp [normalizeStep, hskip]
  · by_cases hdots : x = ['.', '.']
    · subst hdots
      by_cases hpop : t ≠ [] ∧ t.getLast? ≠ some ['.', '.']
      · obtain ⟨hne, hlast⟩ := hpop
        obtain ⟨t', n, rfl⟩ : ∃ t' n, t = t' ++ [n] :=
          ⟨t.dropLast, t.getLast hne, (List.dropLast_append_getLast hne).symm⟩
        have hn : n ≠ ['.', '.'] := by simpa using hlast
        have hn' := ht n (by simp)
        have hstep : normalizeStep true (t' ++ [n]) ['.', '.'] = t' := by
          simp [normalizeStep, hn]
        rw [hstep, List.foldl_append, List.foldl_cons, List.foldl_nil,
          normalizeStep_of_proper a _ n hn'.1 hn'.2 hn]
        simp [normalizeStep, hn]
      · have hstep : normalizeStep true t ['.', '.'] = t ++ [['.', '.']] := by
          simp only [normalizeStep]
          simp [hpop]
        rw [hstep, List.foldl_append, List.foldl_cons, List.foldl_nil]
    · have h₁ : x ≠ [] := fun e => hskip (Or.inl e)
      have h₂ : x ≠ ['.'] := fun e => hskip (Or.inr e)
      rw [normalizeStep_of_proper true t x h₁ h₂ hdots, List.foldl_append, List.foldl_cons,
        List.foldl_nil]

/-- Normalizing the tail of a path first does not change the result. -/
theorem foldl_normalizeStep_normalized (a : Bool) (res : List (List Char))
    (segs : List (List Char)) :
    (segs.foldl (normalizeStep true) []).foldl (normalizeStep a) res =
      segs.foldl (normalizeStep a) res := by
  induction segs using List.reverseRecOn with
  | nil => rfl
  | append_singleton ys x ih =>
    rw [List.foldl_append, List.foldl_cons, List.foldl_nil, List.foldl_append, List.foldl_cons,
      List.foldl_nil, ← ih]
    exact (normalizeStep_foldl_normalized a res _ x
      (foldl_normalizeStep_noSkip true ys [] (by simp))).symm

theorem getLast?_append_singleton (l : List Char) (a : Char) : (l ++ [a]).getLast? = some a := by
  simp

theorem normalize_congr (l r : List Char) (hl : l ≠ []) (hr : r ≠ [])
    (hhead : l.head? = some '/' ↔ r.head? = some '/')
    (hlast : l.getLast? = some '/' ↔ r.getLast? = some '/')
    (hseg : ∀ a, normalizeString a l = normalizeString a r) : normalize l = normalize r := by
  unfold normalize
  simp only [hl, hr, if_false, hseg]
  have h₁ : decide (l.head? = some '/') = decide (r.head? = some '/') := by
    simp only [decide_eq_decide]
    exact hhead
  by_cases hh : r.head? = some '/' <;> by_cases ht : r.getLast? = some '/' <;>
    simp [hh, ht, hhead, hlast]

/-- The normal form of a relative path whose last character is neither a
separator nor a dot. -/
theorem normalize_relative_file (y : List Char) (ch : Char) (hch₁ : ch ≠ '/') (hch₂ : ch ≠ '.')
    (hhead : (y ++ [ch]).head? ≠ some '/') :
    normalize (y ++ [ch]) ≠ []
      ∧ (normalize (y ++ [ch])).head? ≠ some '/'
      ∧ (normalize (y ++ [ch])).getLast? = some ch
      ∧ splitSlash (normalize (y ++ [ch])) = normalizeString true (y ++ [ch]) := by
  obtain ⟨init, last, -, hsplit⟩ := splitSlash_append_char y ch hch₁
  have hw₁ : last ++ [ch] ≠ [] := by simp
  have hw₂ : last ++ [ch] ≠ ['.'] := by
    intro e
    have := congrArg List.getLast? e
    simp at this
    exact hch₂ this
  have hw₃ : last ++ [ch] ≠ ['.', '.'] := by
    intro e
    have := congrArg List.getLast? e
    simp at this
    exact hch₂ this
  have hN : normalizeString true (y ++ [ch]) =
      init.foldl (normalizeStep true) [] ++ [last ++ [ch]] := by
    unfold normalizeString
    rw [hsplit, List.foldl_append, List.foldl_cons, List.foldl_nil,
      normalizeStep_of_proper true _ _ hw₁ hw₂ hw₃]
  have hnoSkip := foldl_normalizeStep_noSkip true (splitSlash (y ++ [ch])) [] (by simp)
  have hnoSlash := foldl_normalizeStep_noSlash true (splitSlash (y ++ [ch])) [] (by simp)
    (not_mem_of_mem_splitSlash (y ++ [ch]))
  have hNne : normalizeString true (y ++ [ch]) ≠ [] := by
    rw [hN]
    simp
  have hres : ['/'].intercalate (normalizeString true (y ++ [ch])) ≠ [] := by
    rw [hN, intercalate_append_singleton]
    split <;> simp
  have hreslast : (['/'].intercalate (normalizeString true (y ++ [ch]))).getLast? = some ch := by
    rw [hN, intercalate_append_singleton]
    split
    · simp
    · rw [show ['/'].intercalate (init.foldl (normalizeStep true) []) ++ '/' :: (last ++ [ch]) =
        (['/'].intercalate (init.foldl (normalizeStep true) []) ++ '/' :: last) ++ [ch] by simp]
      exact getLast?_append_singleton _ _
  have hnorm : normalize (y ++ [ch]) = ['/'].intercalate (normalizeString true (y ++ [ch])) := by
    have hne : y ++ [ch] ≠ [] := by simp
    have hl : (y ++ [ch]).getLast? ≠ some '/' := by
      rw [getLast?_append_singleton]
      simpa using hch₁
    unfold normalize
    simp only [hne, if_false, hhead, decide_False, Bool.not_false, hres, hl]
  have hreshead : (['/'].intercalate (normalizeString true (y ++ [ch]))).head? ≠ some '/' := by
    rcases hsegs : normalizeString true (y ++ [ch]) with _ | ⟨first, rest⟩
    · exact absurd hsegs hNne
    · have hf := hnoSkip first (by unfold normalizeString at hsegs; rw [hsegs]; simp)
      have hs := hnoSlash first (by unfold normalizeString at hsegs; rw [hsegs]; simp)
      obtain ⟨f, fs, rfl⟩ : ∃ f fs, first = f :: fs := List.exists_cons_of_ne_nil hf.1
      have hfne : f ≠ '/' := by
        intro e
        exact hs (by simp [e])
      cases rest with
      | nil => simpa [intercalate_singleton] using hfne
      | cons y' r => simpa [intercalate_cons_cons] using hfne
  refine ⟨?_, ?_, ?_, ?_⟩
  · rw [hnorm]; exact hres
  · rw [hnorm]; exact hreshead
  · rw [hnorm]; exact hreslast
  · rw [hnorm]
    exact splitSlash_intercalate _ hNne (fun seg hseg => hnoSlash seg hseg)

/-- Normalizing a relative file path before it is appended to a prefix does
not change the normal form of the whole. -/
theorem normalize_prefix_normalized (pre y : List Char) (ch : Char)
    (hpre : pre = [] ∨ ∃ q, pre = q ++ ['/'])
    (hch₁ : ch ≠ '/') (hch₂ : ch ≠ '.') (hhead : (y ++ [ch]).head? ≠ some '/') :
    normalize (pre ++ normalize (y ++ [ch])) = normalize (pre ++ (y ++ [ch])) := by
  obtain ⟨hXne, hXhead, hXlast, hXsplit⟩ := normalize_relative_file y ch hch₁ hch₂ hhead
  have hlastR : (pre ++ (y ++ [ch])).getLast? = some ch := by
    rw [← List.append_assoc]
    exact getLast?_append_singleton _ _
  have hlastL : (pre ++ normalize (y ++ [ch])).getLast? = some ch := by
    obtain ⟨x', hx'⟩ : ∃ x', normalize (y ++ [ch]) = x' ++ [ch] := by
      refine ⟨(normalize (y ++ [ch])).dropLast, ?_⟩
      have h := List.dropLast_append_getLast hXne
      have hg : (normalize (y ++ [ch])).getLast hXne = ch := by
        have := List.getLast?_eq_getLast _ hXne
        rw [hXlast] at this
        exact (Option.some.inj this).symm
      rw [hg] at h
      exact h.symm
    rw [hx', ← List.append_assoc]
    exact getLast?_append_singleton _ _
  apply normalize_congr
  · simp [hXne]
  · simp
  · rcases hpre with rfl | ⟨q, rfl⟩
    · simp only [List.nil_append]
      exact ⟨fun h => absurd h hXhead, fun h => absurd h hhead⟩
    · cases q <;> simp
  · rw [hlastL, hlastR]
  · intro a
    unfold normalizeString
    rcases hpre with rfl | ⟨q, rfl⟩
    · simp only [List.nil_append]
      rw [hXsplit]
      exact foldl_normalizeStep_normalized a [] _
    · rw [show q ++ ['/'] ++ normalize (y ++ [ch]) = q ++ '/' :: normalize (y ++ [ch]) by simp,
        show q ++ ['/'] ++ (y ++ [ch]) = q ++ '/' :: (y ++ [ch]) by simp,
        splitSlash_append_slash, splitSlash_append_slash, List.foldl_append, List.foldl_append,
        hXsplit]
      exact foldl_normalizeStep_normalized a _ _

/-- The nested call `join(a, b, join(c, n))` is `join(a, b, c, n)` when `c`
is a non-empty name without separator and `n` ends in a character that is
neither a separator nor a dot. -/
theorem joinChars_nested (a b c x : List Char) (ch : Char)
    (hc₁ : c ≠ []) (hc₂ : '/' ∉ c) (hch₁ : ch ≠ '/') (hch₂ : ch ≠ '.') :
    joinChars [a, b, joinChars [c, x ++ [ch]]] = joinChars [a, b, c, x ++ [ch]] := by
  have hn : x ++ [ch] ≠ [] := by simp
  have hr : c ++ '/' :: (x ++ [ch]) = (c ++ '/' :: x) ++ [ch] := by simp
  have hhead : ((c ++ '/' :: x) ++ [ch]).head? ≠ some '/' := by
    obtain ⟨f, fs, rfl⟩ := List.exists_cons_of_ne_nil hc₁
    have hf : f ≠ '/' := by
      intro e
      exact hc₂ (by simp [e])
    simpa using hf
  have hinner : joinChars [c, x ++ [ch]] = normalize ((c ++ '/' :: x) ++ [ch]) := by
    simp only [joinChars, List.filter, hc₁, hn, ne_eq, not_false_eq_true, decide_True,
      intercalate_cons_cons, intercalate_singleton, hr]
  have hXne : normalize (c ++ '/' :: (x ++ [ch])) ≠ [] := by
    rw [hr]
    exact (normalize_relative_file (c ++ '/' :: x) ch hch₁ hch₂ hhead).1
  rw [hinner]
  by_cases ha : a = [] <;> by_cases hb : b = []
  · have h := normalize_prefix_normalized [] (c ++ '/' :: x) ch (Or.inl rfl) hch₁ hch₂ hhead
    simpa [joinChars, List.filter, ha, hb, hc₁, hXne, intercalate_cons_cons,
      intercalate_singleton] using h
  · have h := normalize_prefix_normalized (b ++ ['/']) (c ++ '/' :: x) ch (Or.inr ⟨b, rfl⟩)
      hch₁ hch₂ hhead
    simpa [joinChars, List.filter, ha, hb, hc₁, hXne, intercalate_cons_cons,
      intercalate_singleton] using h
  · have h := normalize_prefix_normalized (a ++ ['/']) (c ++ '/' :: x) ch (Or.inr ⟨a, rfl⟩)
      hch₁ hch₂ hhead
    simpa [joinChars, List.filter, ha, hb, hc₁, hXne, intercalate_cons_cons,
      intercalate_singleton] using h
  · have h := normalize_prefix_normalized ((a ++ '/' :: b) ++ ['/']) (c ++ '/' :: x) ch
      (Or.inr ⟨a ++ '/' :: b, rfl⟩) hch₁ hch₂ hhead
    simpa [joinChars, List.filter, ha, hb, hc₁, hXne, intercalate_cons_cons,
      intercalate_singleton] using h

/-- The nested call `path.join(cwd, dist, path.join(dir, name + ext))` is
`path.join(cwd, dist, dir, name + ext)` for a directory name `dir` without
separator and a file name ending in `s`. -/
theorem join_nested_js (cwd dist dir file : String) (hd₁ : dir.data ≠ [])
    (hd₂ : '/' ∉ dir.data) :
    join [cwd, dist, join [dir, file ++ "s"]] = join [cwd, dist, dir, file ++ "s"] := by
  have h := joinChars_nested cwd.data dist.data dir.data file.data 's' hd₁ hd₂ (by decide)
    (by decide)
  simp only [join, List.map, String.data_append]
  exact congrArg String.mk h

/-! ### Distinct paths -/

theorem foldl_normalizeStep_of_no_dots (a : Bool) (res segs : List (List Char))
    (h : ['.', '.'] ∉ segs) :
    segs.foldl (normalizeStep a) res = res ++ keptSegments segs := by
  induction segs generalizing res with
  | nil => simp [keptSegments]
  | cons x xs ih =>
    simp only [List.mem_cons, not_or] at h
    rw [List.foldl_cons, ih _ h.2]
    by_cases hskip : x = [] ∨ x = ['.']
    · have hx : ¬ (x ≠ [] ∧ x ≠ ['.']) := by
        rcases hskip with e | e <;> simp [e]
      simp [normalizeStep, hskip, keptSegments, List.filter_cons, hx]
    · have h₁ : x ≠ [] := fun e => hskip (Or.inl e)
      have h₂ : x ≠ ['.'] := fun e => hskip (Or.inr e)
      have h₃ : x ≠ ['.', '.'] := fun e => h.1 e.symm
      rw [normalizeStep_of_proper a res x h₁ h₂ h₃]
      simp [keptSegments, List.filter_cons, h₁, h₂]

theorem splitSlash_append_of_not_mem (q e : List Char) (he : '/' ∉ e) :
    ∃ init last, splitSlash q = init ++ [last] ∧ splitSlash (q ++ e) = init ++ [last ++ e] := by
  induction q with
  | nil => exact ⟨[], [], by simp [splitSlash], by simp [splitSlash_of_not_mem e he]⟩
  | cons c cs ih =>
    obtain ⟨init, last, h₁, h₂⟩ := ih
    by_cases hc : c = '/'
    · exact ⟨[] :: init, last, by simp [splitSlash, hc, h₁], by simp [splitSlash, hc, h₂]⟩
    · cases init with
      | nil =>
        refine ⟨[], c :: last, ?_, ?_⟩
        · simp [splitSlash, hc, h₁]
        · have h₂' : splitSlash (cs ++ e) = [last ++ e] := by simpa using h₂
          simp [splitSlash, hc, h₂']
      | cons s ss =>
        refine ⟨(c :: s) :: ss, last, ?_, ?_⟩
        · simp [splitSlash, hc, h₁]
        · have h₂' : splitSlash (cs ++ e) = s :: (ss ++ [last ++ e]) := by simpa using h₂
          simp [splitSlash, hc, h₂']

theorem intercalate_ne_nil (segs : List (List Char)) (hne : segs ≠ [])
    (h : ∀ s ∈ segs, s ≠ []) : ['/'].intercalate segs ≠ [] := by
  cases segs with
  | nil => exact absurd rfl hne
  | cons x r =>
    have hx := h x (by simp)
    cases r with
    | nil => simpa [intercalate_singleton] using hx
    | cons y r => simp [intercalate_cons_cons, hx]

theorem intercalate_injective (s t : List (List Char)) (hs : s ≠ []) (ht : t ≠ [])
    (hs' : ∀ x ∈ s, '/' ∉ x) (ht' : ∀ x ∈ t, '/' ∉ x)
    (h : ['/'].intercalate s = ['/'].intercalate t) : s = t := by
  rw [← splitSlash_intercalate s hs hs', ← splitSlash_intercalate t ht ht', h]

theorem keptSegments_subset (segs : List (List Char)) :
    ∀ s ∈ keptSegments segs, s ∈ segs ∧ s ≠ [] ∧ s ≠ ['.'] := by
  intro s hs
  simpa [keptSegments, List.mem_filter] using hs

/-- The normal form of a path that does not end in a separator and keeps
at least one segment: the root mark, then the kept segments. -/
theorem normalize_eq_intercalate (p : List Char) (hne : p ≠ [])
    (hlast : p.getLast? ≠ some '/')
    (hsegs : normalizeString (!decide (p.head? = some '/')) p ≠ []) :
    normalize p =
      (if p.head? = some '/' then ['/'] else []) ++
        ['/'].intercalate (normalizeString (!decide (p.head? = some '/')) p) := by
  have hres : ['/'].intercalate (normalizeString (!decide (p.head? = some '/')) p) ≠ [] :=
    intercalate_ne_nil _ hsegs
      (fun s hs => (foldl_normalizeStep_noSkip _ (splitSlash p) [] (by simp) s hs).1)
  unfold normalize
  simp only [hne, if_false, hres, hlast]
  split <;> simp

/-- The normal form of `pre/dir/file` for a directory name `dir` and a file
path without `..` segments: the segments of the prefix, the directory, and
the kept segments of the file path. -/
theorem normalize_dir_file (pre d x : List Char) (ch : Char)
    (hpre : pre = [] ∨ ∃ q, pre = q ++ ['/'])
    (hd₁ : d ≠ []) (hd₂ : '/' ∉ d) (hd₃ : d ≠ ['.']) (hd₄ : d ≠ ['.', '.'])
    (hch : ch ≠ '/') (hdots : ['.', '.'] ∉ splitSlash (x ++ [ch])) :
    normalize (pre ++ (d ++ '/' :: (x ++ [ch]))) =
      (if pre.head? = some '/' then ['/'] else []) ++
        ['/'].intercalate
          (normalizeString (!decide (pre.head? = some '/')) pre ++ [d]
            ++ keptSegments (splitSlash (x ++ [ch]))) := by
  have hdhead : d.head? ≠ some '/' := by
    obtain ⟨f, fs, rfl⟩ := List.exists_cons_of_ne_nil hd₁
    have hf : f ≠ '/' := by
      intro e
      exact hd₂ (by simp [e])
    simpa using hf
  have hhead : (pre ++ (d ++ '/' :: (x ++ [ch]))).head? = some '/' ↔ pre.head? = some '/' := by
    rcases hpre with rfl | ⟨q, rfl⟩
    · obtain ⟨f, fs, rfl⟩ := List.exists_cons_of_ne_nil hd₁
      simpa using hdhead
    · cases q <;> simp
  have hsegs : ∀ a, normalizeString a (pre ++ (d ++ '/' :: (x ++ [ch]))) =
      normalizeString a pre ++ [d] ++ keptSegments (splitSlash (x ++ [ch])) := by
    intro a
    have hnd : ['.', '.'] ∉ d :: splitSlash (x ++ [ch]) := by
      simp only [List.mem_cons, not_or]
      exact ⟨fun e => hd₄ e.symm, hdots⟩
    have hkept : keptSegments (d :: splitSlash (x ++ [ch])) =
        d :: keptSegments (splitSlash (x ++ [ch])) := by
      simp [keptSegments, List.filter_cons, hd₁, hd₃]
    unfold normalizeString
    rcases hpre with rfl | ⟨q, rfl⟩
    · simp only [List.nil_append]
      rw [splitSlash_append_slash, splitSlash_of_not_mem d hd₂, List.singleton_append,
        foldl_normalizeStep_of_no_dots a [] _ hnd, hkept]
      simp [splitSlash, normalizeStep]
    · rw [show q ++ ['/'] ++ (d ++ '/' :: (x ++ [ch])) = q ++ '/' :: (d ++ '/' :: (x ++ [ch])) by
          simp,
        splitSlash_append_slash, splitSlash_append_slash, splitSlash_of_not_mem d hd₂,
        List.singleton_append, List.foldl_append, foldl_normalizeStep_of_no_dots a _ _ hnd, hkept,
        show q ++ ['/'] = q ++ '/' :: [] by rfl, splitSlash_append_slash, List.foldl_append]
      simp [splitSlash, normalizeStep]
  have hne : pre ++ (d ++ '/' :: (x ++ [ch])) ≠ [] := by simp [hd₁]
  have hlast : (pre ++ (d ++ '/' :: (x ++ [ch]))).getLast? ≠ some '/' := by
    rw [show pre ++ (d ++ '/' :: (x ++ [ch])) = (pre ++ (d ++ '/' :: x)) ++ [ch] by simp,
      getLast?_append_singleton]
    simpa using hch
  have hnorm := normalize_eq_intercalate _ hne hlast (by rw [hsegs]; simp)
  rw [hnorm, hsegs]
  have hdec : decide ((pre ++ (d ++ '/' :: (x ++ [ch]))).head? = some '/') =
      decide (pre.head? = some '/') := by
    simp only [decide_eq_decide]
    exact hhead
  rw [hdec]
  by_cases hp : pre.head? = some '/'
  · rw [if_pos (hhead.mpr hp), if_pos hp]
  · rw [if_neg (fun h => hp (hhead.mp h)), if_neg hp]

/-- Two paths `pre/dir/file` with the same normal form have the same
directory name and the same kept file segments. -/
theorem normalize_dir_file_injective (pre d₁ d₂ x₁ x₂ : List Char) (ch₁ ch₂ : Char)
    (hpre : pre = [] ∨ ∃ q, pre = q ++ ['/'])
    (hd₁ : d₁ ≠ [] ∧ '/' ∉ d₁ ∧ d₁ ≠ ['.'] ∧ d₁ ≠ ['.', '.'])
    (hd₂ : d₂ ≠ [] ∧ '/' ∉ d₂ ∧ d₂ ≠ ['.'] ∧ d₂ ≠ ['.', '.'])
    (hch₁ : ch₁ ≠ '/') (hch₂ : ch₂ ≠ '/')
    (hdots₁ : ['.', '.'] ∉ splitSlash (x₁ ++ [ch₁]))
    (hdots₂ : ['.', '.'] ∉ splitSlash (x₂ ++ [ch₂]))
    (h : normalize (pre ++ (d₁ ++ '/' :: (x₁ ++ [ch₁]))) =
      normalize (pre ++ (d₂ ++ '/' :: (x₂ ++ [ch₂])))) :
    d₁ = d₂ ∧
      keptSegments (splitSlash (x₁ ++ [ch₁])) = keptSegments (splitSlash (x₂ ++ [ch₂])) := by
  rw [normalize_dir_file pre d₁ x₁ ch₁ hpre hd₁.1 hd₁.2.1 hd₁.2.2.1 hd₁.2.2.2 hch₁ hdots₁,
    normalize_dir_file pre d₂ x₂ ch₂ hpre hd₂.1 hd₂.2.1 hd₂.2.2.1 hd₂.2.2.2 hch₂ hdots₂] at h
  have h' := List.append_cancel_left h
  have hS : ∀ s ∈ normalizeString (!decide (pre.head? = some '/')) pre, '/' ∉ s :=
    foldl_normalizeStep_noSlash _ (splitSlash pre) [] (by simp) (not_mem_of_mem_splitSlash pre)
  have hslash : ∀ (d x : List Char) (ch : Char), '/' ∉ d →
      ∀ s ∈ normalizeString (!decide (pre.head? = some '/')) pre ++ [d]
        ++ keptSegments (splitSlash (x ++ [ch])), '/' ∉ s := by
    intro d x ch hd s hs
    simp only [List.mem_append, List.mem_singleton] at hs
    rcases hs with (hs | hs) | hs
    · exact hS s hs
    · rw [hs]; exact hd
    · exact not_mem_of_mem_splitSlash _ s (keptSegments_subset _ s hs).1
  have heq := intercalate_injective _ _ (by simp) (by simp) (hslash d₁ x₁ ch₁ hd₁.2.1)
    (hslash d₂ x₂ ch₂ hd₂.2.1) h'
  simpa using heq

/-- The call `join(a, b, dir, file)` normalizes `pre/dir/file` for a prefix
`pre` that depends on `a` and `b` only. -/
theorem joinChars_eq_normalize (a b : List Char) :
    ∃ pre, (pre = [] ∨ ∃ q, pre = q ++ ['/']) ∧
      ∀ d f : List Char, d ≠ [] → f ≠ [] →
        joinChars [a, b, d, f] = normalize (pre ++ (d ++ '/' :: f)) := by
  by_cases ha : a = [] <;> by_cases hb : b = []
  · refine ⟨[], Or.inl rfl, fun d f hd hf => ?_⟩
    simp [joinChars, List.filter, ha, hb, hd, hf, intercalate_cons_cons, intercalate_singleton]
  · refine ⟨b ++ ['/'], Or.inr ⟨b, rfl⟩, fun d f hd hf => ?_⟩
    simp [joinChars, List.filter, ha, hb, hd, hf, intercalate_cons_cons, intercalate_singleton]
  · refine ⟨a ++ ['/'], Or.inr ⟨a, rfl⟩, fun d f hd hf => ?_⟩
    simp [joinChars, List.filter, ha, hb, hd, hf, intercalate_cons_cons, intercalate_singleton]
  · refine ⟨(a ++ '/' :: b) ++ ['/'], Or.inr ⟨a ++ '/' :: b, rfl⟩, fun d f hd hf => ?_⟩
    simp [joinChars, List.filter, ha, hb, hd, hf, intercalate_cons_cons, intercalate_singleton]

/-- A file name extension keeps a path free of `..` segments. -/
theorem not_mem_splitSlash_append (q e : List Char) (ch : Char) (he : '/' ∉ e ++ [ch])
    (hch : ch ≠ '.') (h : ['.', '.'] ∉ splitSlash q) :
    ['.', '.'] ∉ splitSlash (q ++ (e ++ [ch])) := by
  obtain ⟨init, last, h₁, h₂⟩ := splitSlash_append_of_not_mem q (e ++ [ch]) he
  rw [h₂]
  rw [h₁] at h
  simp only [List.mem_append, List.mem_singleton, not_or] at h ⊢
  refine ⟨h.1, fun e' => ?_⟩
  have hl := congrArg List.getLast? e'
  rw [← List.append_assoc, getLast?_append_singleton] at hl
  simp at hl
  exact hch hl.symm

/-- Two different extensions of one path give different kept segments. -/
theorem keptSegments_append_ne (q e₁ e₂ : List Char) (ch₁ ch₂ : Char)
    (he₁ : '/' ∉ e₁ ++ [ch₁]) (he₂ : '/' ∉ e₂ ++ [ch₂]) (hch₁ : ch₁ ≠ '.') (hch₂ : ch₂ ≠ '.')
    (hne : e₁ ++ [ch₁] ≠ e₂ ++ [ch₂]) :
    keptSegments (splitSlash (q ++ (e₁ ++ [ch₁]))) ≠
      keptSegments (splitSlash (q ++ (e₂ ++ [ch₂]))) := by
  obtain ⟨init, last, h₁, h₂⟩ := splitSlash_append_of_not_mem q (e₁ ++ [ch₁]) he₁
  obtain ⟨init', last', h₁', h₂'⟩ := splitSlash_append_of_not_mem q (e₂ ++ [ch₂]) he₂
  rw [h₁] at h₁'
  obtain ⟨hinit, hlast⟩ := List.append_inj' h₁' rfl
  simp only [List.cons.injEq, and_true] at hlast
  subst hinit
  subst hlast
  have hkept : ∀ (e : List Char) (ch : Char), ch ≠ '.' →
      keptSegments (init ++ [last ++ (e ++ [ch])]) =
        keptSegments init ++ [last ++ (e ++ [ch])] := by
    intro e ch hch
    have hw₁ : last ++ (e ++ [ch]) ≠ [] := by simp
    have hw₂ : last ++ (e ++ [ch]) ≠ ['.'] := by
      intro e'
      have hl := congrArg List.getLast? e'
      rw [← List.append_assoc, getLast?_append_singleton] at hl
      simp at hl
      exact hch hl
    simp [keptSegments, List.filter_append, List.filter_cons, hw₁, hw₂]
  rw [h₂, h₂', hkept e₁ ch₁ hch₁, hkept e₂ ch₂ hch₂]
  intro heq
  have h' := List.append_cancel_left heq
  simp only [List.cons.injEq, and_true] at h'
  exact hne (List.append_cancel_left h')

/-- Two calls `join(a, b, dir, name + ext)` give different paths when the
directory names or the extensions differ and `name` has no `..` segment. -/
theorem joinChars_dir_file_ne (a b d₁ d₂ q e₁ e₂ : List Char) (ch₁ ch₂ : Char)
    (hd₁ : d₁ ≠ [] ∧ '/' ∉ d₁ ∧ d₁ ≠ ['.'] ∧ d₁ ≠ ['.', '.'])
    (hd₂ : d₂ ≠ [] ∧ '/' ∉ d₂ ∧ d₂ ≠ ['.'] ∧ d₂ ≠ ['.', '.'])
    (he₁ : '/' ∉ e₁ ++ [ch₁]) (he₂ : '/' ∉ e₂ ++ [ch₂]) (hch₁ : ch₁ ≠ '.') (hch₂ : ch₂ ≠ '.')
    (hq : ['.', '.'] ∉ splitSlash q)
    (hne : d₁ ≠ d₂ ∨ e₁ ++ [ch₁] ≠ e₂ ++ [ch₂]) :
    joinChars [a, b, d₁, q ++ (e₁ ++ [ch₁])] ≠ joinChars [a, b, d₂, q ++ (e₂ ++ [ch₂])] := by
  obtain ⟨pre, hpre, hjoin⟩ := joinChars_eq_normalize a b
  rw [hjoin d₁ _ hd₁.1 (by simp), hjoin d₂ _ hd₂.1 (by simp)]
  intro h
  have hs₁ : ch₁ ≠ '/' := by
    intro e
    exact he₁ (by simp [e])
  have hs₂ : ch₂ ≠ '/' := by
    intro e
    exact he₂ (by simp [e])
  have hdots₁ := not_mem_splitSlash_append q e₁ ch₁ he₁ hch₁ hq
  have hdots₂ := not_mem_splitSlash_append q e₂ ch₂ he₂ hch₂ hq
  rw [← List.append_assoc q e₁ [ch₁]] at h hdots₁
  rw [← List.append_assoc q e₂ [ch₂]] at h hdots₂
  obtain ⟨hd, hk⟩ := normalize_dir_file_injective pre d₁ d₂ (q ++ e₁) (q ++ e₂) ch₁ ch₂ hpre
    hd₁ hd₂ hs₁ hs₂ hdots₁ hdots₂ h
  rcases hne with hne | hne
  · exact hne hd
  · rw [List.append_assoc q e₁ [ch₁], List.append_assoc q e₂ [ch₂]] at hk
    exact keptSegments_append_ne q e₁ e₂ ch₁ ch₂ he₁ he₂ hch₁ hch₂ hne hk

/-- The string form of `joinChars_dir_file_ne`, for extensions ending in `s`. -/
theorem join_dir_file_ne (cwd dist d₁ d₂ name e₁ e₂ : String)
    (hd₁ : d₁.data ≠ [] ∧ '/' ∉ d₁.data ∧ d₁.data ≠ ['.'] ∧ d₁.data ≠ ['.', '.'])
    (hd₂ : d₂.data ≠ [] ∧ '/' ∉ d₂.data ∧ d₂.data ≠ ['.'] ∧ d₂.data ≠ ['.', '.'])
    (he₁ : '/' ∉ e₁.data ++ ['s']) (he₂ : '/' ∉ e₂.data ++ ['s'])
    (hq : ['.', '.'] ∉ splitSlash name.data)
    (hne : d₁.data ≠ d₂.data ∨ e₁.data ++ ['s'] ≠ e₂.data ++ ['s']) :
    join [cwd, dist, d₁, name ++ (e₁ ++ "s")] ≠ join [cwd, dist, d₂, name ++ (e₂ ++ "s")] := by
  intro h
  have h' := congrArg String.data h
  simp only [join, List.map, String.data_append] at h'
  exact joinChars_dir_file_ne cwd.data dist.data d₁.data d₂.data name.data e₁.data e₂.data 's' 's'
    hd₁ hd₂ he₁ he₂ (by decide) (by decide) hq hne h'

end path

/-! ## When `build:copy:essentials` writes -/

namespace path

theorem normalize_ne_nil (p : List Char) : normalize p ≠ [] := by
  unfold normalize
  simp only []
  repeat' split
  all_goals simp_all

theorem joinChars_ne_nil (args : List (List Char)) : joinChars args ≠ [] := by
  unfold joinChars
  split
  · simp
  · exact normalize_ne_nil _

theorem join_ne_empty (args : List String) : join args ≠ "" := by
  intro h
  have h' := congrArg String.data h
  exact joinChars_ne_nil _ h'

end path

/-- With a non-empty `config.copy` the task does not throw: it writes the
descriptor built from the source. -/
theorem buildCopyEssentials_ok (cwd : String) (config : Config) (packageJson : PackageJson)
    (hcopy : config.copy ≠ []) :
    ∃ written, buildCopyEssentials cwd config packageJson = Except.ok written
      ∧ written.descriptor = packageDescriptor config packageJson := by
  have hvalid : config.copy.map (fun copyFile => path.join [cwd, copyFile]) ≠ []
      ∧ "" ∉ config.copy.map (fun copyFile => path.join [cwd, copyFile]) := by
    refine ⟨by simpa using hcopy, ?_⟩
    intro hmem
    obtain ⟨copyFile, -, hempty⟩ := List.mem_map.mp hmem
    exact path.join_ne_empty _ hempty
  refine ⟨{ dest := path.join [cwd, config.dist]
            copied := config.copy.map (fun copyFile => path.join [cwd, copyFile])
            descriptor := packageDescriptor config packageJson
            bin :=
              if !config.compiler.cliProject then none
              else some
                { dir := path.join [cwd, config.dist, "bin"]
                  file := templateString (packageJson.get "name") ++ ".js"
                  packageName := packageJson.get "name"
                  mode := 0o755 } }, ?_, rfl⟩
  unfold buildCopyEssentials gulpSrc
  rw [if_pos hvalid]

/-- With an empty `config.copy` the task throws and the series stops before
`build:bundle`, whatever the mode. -/
theorem build_of_copy_nil {π β τ σ ε : Type} (env : Env π β τ)
    (bundleBuild : RollupConfig π β → String → σ → Except ε Unit × σ)
    (config : Config) (packageJson : PackageJson) (world : σ) (hcopy : config.copy = []) :
    build env bundleBuild config packageJson world =
      (Except.error "Invalid glob argument: ", none) := by
  simp [build, buildCopyEssentials, gulpSrc, hcopy, String.intercalate]

/-! ## The shape of a run of `build:bundle` -/

section Shape

variable {π β τ σ ε : Type}

/-- A guarded `await bundleBuild(...)` either succeeds, having recorded the
call when the guard holds, or throws, the guard holding and the call being
recorded as thrown. -/
theorem guarded_await_cases (flag : Bool)
    (bundleBuild : RollupConfig π β → String → σ → Except ε Unit × σ)
    (c : RollupConfig π β) (l : String) (st : TaskState π β σ) :
    (∃ w, (if flag = true then awaitBundleBuild bundleBuild c l st else (Except.ok (), st)) =
        (Except.ok (), { world := w,
                         calls := st.calls ++
                           (if flag = true then [{ config := c, label := l, threw := false }]
                            else []) }))
      ∨ (∃ e w, flag = true ∧
          (if flag = true then awaitBundleBuild bundleBuild c l st else (Except.ok (), st)) =
            (Except.error e,
              { world := w
                calls := st.calls ++ [{ config := c, label := l, threw := true }] })) := by
  cases flag with
  | false => exact Or.inl ⟨st.world, by simp⟩
  | true =>
    rcases hb : bundleBuild c l st.world with ⟨r, w⟩
    cases r with
    | ok u =>
      refine Or.inl ⟨w, ?_⟩
      simp [awaitBundleBuild, hb]
    | error e =>
      refine Or.inr ⟨e, w, rfl, ?_⟩
      simp [awaitBundleBuild, hb]

/-- Every run of `build:bundle` makes a non-empty initial segment of the
planned calls. Either it completes with `undefined`, no call having thrown
and all planned calls made, or it completes with `null`, its last call and
no other having thrown. -/
theorem buildBundle_shape (env : Env π β τ)
    (bundleBuild : RollupConfig π β → String → σ → Except ε Unit × σ)
    (config : Config) (packageJson : PackageJson) (world : σ) :
    (buildBundle env bundleBuild config packageJson world).calls.map
        (fun c => (c.config, c.label)) =
        (plannedTargets env config packageJson).take
          (buildBundle env bundleBuild config packageJson world).calls.length
      ∧ (buildBundle env bundleBuild config packageJson world).calls ≠ []
      ∧ (((buildBundle env bundleBuild config packageJson world).result =
            Except.ok JsReturn.undefined
          ∧ (buildBundle env bundleBuild config packageJson world).calls.map (fun c => c.threw) =
            List.replicate (buildBundle env bundleBuild config packageJson world).calls.length false
          ∧ (buildBundle env bundleBuild config packageJson world).calls.length =
            (plannedTargets env config packageJson).length)
        ∨ ((buildBundle env bundleBuild config packageJson world).result = Except.ok JsReturn.null
          ∧ (buildBundle env bundleBuild config packageJson world).calls.map (fun c => c.threw) =
            List.replicate
              ((buildBundle env bundleBuild config packageJson world).calls.length - 1) false
              ++ [true])) := by
  rcases config with ⟨dist, copy, compiler, ⟨es5, es2015, minBundle, mode, amd, format, ns⟩, bundle⟩
  simp only [buildBundle, buildBundleTry, plannedTargets]
  rcases guarded_await_cases true bundleBuild (flatConfig env _ packageJson) "FLAT"
      { world := world, calls := [] } with ⟨w₁, h₁⟩ | ⟨e₁, w₁, -, h₁⟩
  · simp only [if_true] at h₁
    rw [h₁]
    simp only []
    rcases guarded_await_cases minBundle bundleBuild (minifiedFlatConfig env _ packageJson)
        "FLAT MIN" _ with ⟨w₂, h₂⟩ | ⟨e₂, w₂, hf₂, h₂⟩
    · rw [h₂]
      simp only []
      rcases guarded_await_cases es5 bundleBuild (fesm5config env _ packageJson)
          "ES5" _ with ⟨w₃, h₃⟩ | ⟨e₃, w₃, hf₃, h₃⟩
      · rw [h₃]
        simp only []
        rcases guarded_await_cases es2015 bundleBuild (fesm2015config env _ packageJson)
            "ESNEXT" _ with ⟨w₄, h₄⟩ | ⟨e₄, w₄, hf₄, h₄⟩
        · rw [h₄]
          cases minBundle <;> cases es5 <;> cases es2015 <;> simp [List.replicate]
        · rw [h₄]
          subst hf₄
          cases minBundle <;> cases es5 <;> simp [List.replicate]
      · rw [h₃]
        subst hf₃
        cases minBundle <;> cases es2015 <;> simp [List.replicate]
    · rw [h₂]
      subst hf₂
      cases es5 <;> cases es2015 <;> simp [List.replicate]
  · simp only [if_true] at h₁
    rw [h₁]
    cases minBundle <;> cases es5 <;> cases es2015 <;> simp [List.replicate]

end Shape

section Calls

variable {π β τ σ ε : Type}

/-- When no call made in the run threw, the calls made are the planned ones
and the task completes with `undefined`. -/
theorem buildBundle_calls_of_no_throw (env : Env π β τ)
    (bundleBuild : RollupConfig π β → String → σ → Except ε Unit × σ)
    (config : Config) (packageJson : PackageJson) (world : σ)
    (hok : ∀ c ∈ (buildBundle env bundleBuild config packageJson world).calls, c.threw = false) :
    (buildBundle env bundleBuild config packageJson world).calls.map
        (fun c => (c.config, c.label)) = plannedTargets env config packageJson
      ∧ (buildBundle env bundleBuild config packageJson world).result =
        Except.ok JsReturn.undefined := by
  obtain ⟨hplan, -, hshape⟩ := buildBundle_shape env bundleBuild config packageJson world
  rcases hshape with ⟨hres, -, hlen⟩ | ⟨-, hlast⟩
  · refine ⟨?_, hres⟩
    rw [hplan, hlen, List.take_length]
  · exfalso
    have hmem : true ∈ (buildBundle env bundleBuild config packageJson world).calls.map
        (fun c => c.threw) := by
      rw [hlast]
      simp
    obtain ⟨c, hc, hthrew⟩ := List.mem_map.mp hmem
    rw [hok c hc] at hthrew
    exact Bool.noConfusion hthrew

/-- The labels of the planned calls. -/
theorem plannedTargets_labels (env : Env π β τ) (config : Config) (packageJson : PackageJson) :
    (plannedTargets env config packageJson).map Prod.snd =
      ["FLAT"]
        ++ (if config.output.minBundle then ["FLAT MIN"] else [])
        ++ (if config.output.es5 then ["ES5"] else [])
        ++ (if config.output.es2015 then ["ESNEXT"] else []) := by
  cases h₁ : config.output.minBundle <;> cases h₂ : config.output.es5 <;>
    cases h₃ : config.output.es2015 <;> simp [plannedTargets, h₁, h₂, h₃]

/-- The labels of the calls made are among the labels of the planned calls. -/
theorem buildBundle_labels_subset (env : Env π β τ)
    (bundleBuild : RollupConfig π β → String → σ → Except ε Unit × σ)
    (config : Config) (packageJson : PackageJson) (world : σ) (l : String)
    (hl : l ∈ (buildBundle env bundleBuild config packageJson world).calls.map
      (fun c => c.label)) :
    l ∈ (plannedTargets env config packageJson).map Prod.snd := by
  obtain ⟨hplan, -, -⟩ := buildBundle_shape env bundleBuild config packageJson world
  have hmap : (buildBundle env bundleBuild config packageJson world).calls.map
      (fun c => c.label) =
      ((buildBundle env bundleBuild config packageJson world).calls.map
        (fun c => (c.config, c.label))).map Prod.snd := by
    simp [List.map_map, Function.comp_def]
  rw [hmap, hplan, List.map_take] at hl
  exact List.mem_of_mem_take hl

end Calls

/-! ## Plugin stages -/

theorem Stage.filter_isResolve_map_resolve {π : Type} (l : List π) :
    (l.map Stage.resolve).filter Stage.isResolve = l.map Stage.resolve := by
  induction l with
  | nil => rfl
  | cons x xs ih => simp [List.filter_cons, Stage.isResolve, ih]

theorem Stage.filter_isResolve_map_of_not {π : Type} (f : π → Stage π)
    (hf : ∀ p, (f p).isResolve = false) (l : List π) :
    (l.map f).filter Stage.isResolve = [] := by
  induction l with
  | nil => rfl
  | cons x xs ih => simp [List.filter_cons, hf, ih]

theorem Stage.filter_isUglify_map_of_not {π : Type} (f : π → Stage π)
    (hf : ∀ p, (f p).isUglify = false) (l : List π) :
    (l.map f).filter Stage.isUglify = [] := by
  induction l with
  | nil => rfl
  | cons x xs ih => simp [List.filter_cons, hf, ih]

/-- Concatenating blocks of constant rank in increasing order gives a list
that is ordered by rank. -/
theorem Stage.pairwise_rank_blocks {π : Type} (s u : List (Stage π))
    (pre res bld post : List π)
    (hs : ∀ x ∈ s, x.rank = 0) (hu : ∀ x ∈ u, x.rank = 4) :
    (s ++ pre.map Stage.preBundle ++ res.map Stage.resolve ++ bld.map Stage.build ++ u
      ++ post.map Stage.postBundle).Pairwise (fun a b => a.rank ≤ b.rank) := by
  simp only [List.pairwise_append, List.pairwise_map, List.mem_append, List.mem_map]
  refine ⟨⟨⟨⟨⟨?_, ?_, ?_⟩, ?_, ?_⟩, ?_, ?_⟩, ?_, ?_⟩, ?_, ?_⟩
  · exact List.pairwise_iff_forall_sublist.mpr (fun {a b} hab => by
      have ha := hs a (hab.subset (by simp))
      have hb := hs b (hab.subset (by simp))
      omega)
  · exact List.pairwise_iff_forall_sublist.mpr (fun {a b} _ => by simp [Stage.rank])
  · rintro a ha b ⟨x, -, rfl⟩
    simp [hs a ha]
  · exact List.pairwise_iff_forall_sublist.mpr (fun {a b} _ => by simp [Stage.rank])
  · rintro a (ha | ⟨x, -, rfl⟩) b ⟨y, -, rfl⟩
    · simp [hs a ha]
    · simp [Stage.rank]
  · exact List.pairwise_iff_forall_sublist.mpr (fun {a b} _ => by simp [Stage.rank])
  · rintro a ((ha | ⟨x, -, rfl⟩) | ⟨x, -, rfl⟩) b ⟨y, -, rfl⟩
    · simp [hs a ha]
    · simp [Stage.rank]
    · simp [Stage.rank]
  · exact List.pairwise_iff_forall_sublist.mpr (fun {a b} hab => by
      have ha := hu a (hab.subset (by simp))
      have hb := hu b (hab.subset (by simp))
      omega)
  · rintro a (((ha | ⟨x, -, rfl⟩) | ⟨x, -, rfl⟩) | ⟨x, -, rfl⟩) b hb
    · simp [hs a ha]
    · rw [hu b hb]
      simp [Stage.rank]
    · rw [hu b hb]
      simp [Stage.rank]
    · rw [hu b hb]
      simp [Stage.rank]
  · exact List.pairwise_iff_forall_sublist.mpr (fun {a b} _ => by simp [Stage.rank])
  · rintro a ((((ha | ⟨x, -, rfl⟩) | ⟨x, -, rfl⟩) | ⟨x, -, rfl⟩) | ha) b ⟨y, -, rfl⟩
    · simp [hs a ha]
    · simp [Stage.rank]
    · simp [Stage.rank]
    · simp [Stage.rank]
    · rw [hu a ha]
      simp [Stage.rank]

/-! ## Regular expressions -/

namespace RegExp

theorem matches_nil_of_nullable (r : RegExp) (h : nullable r = true) : Matches r [] := by
  induction r with
  | never => simp [nullable] at h
  | empty => exact Matches.empty
  | char c => simp [nullable] at h
  | cls p => simp [nullable] at h
  | seq r s ihr ihs =>
    simp only [nullable, Bool.and_eq_true] at h
    exact Matches.seq (ihr h.1) (ihs h.2)
  | alt r s ihr ihs =>
    simp only [nullable, Bool.or_eq_true] at h
    rcases h with h | h
    · exact Matches.altLeft (ihr h)
    · exact Matches.altRight (ihs h)
  | star r _ => exact Matches.starNil

theorem nullable_of_matches (r : RegExp) (w : List Char) (h : Matches r w) (hw : w = []) :
    nullable r = true := by
  induction h with
  | empty => rfl
  | char c => simp at hw
  | cls p c _ => simp at hw
  | seq _ _ ihr ihs =>
    simp only [List.append_eq_nil] at hw
    simp [nullable, ihr hw.1, ihs hw.2]
  | altLeft _ ih => simp [nullable, ih hw]
  | altRight _ ih => simp [nullable, ih hw]
  | starNil => rfl
  | starCons _ _ _ _ => rfl

theorem nullable_iff (r : RegExp) : nullable r = true ↔ Matches r [] :=
  ⟨matches_nil_of_nullable r, fun h => nullable_of_matches r [] h rfl⟩

theorem matches_cons_of_deriv (r : RegExp) (c : Char) (w : List Char)
    (h : Matches (deriv r c) w) : Matches r (c :: w) := by
  induction r generalizing w with
  | never => cases h
  | empty => cases h
  | char d =>
    simp only [deriv] at h
    split at h
    · rename_i hc
      cases h
      rw [hc]
      exact Matches.char d
    · cases h
  | cls p =>
    simp only [deriv] at h
    split at h
    · rename_i hp
      cases h
      exact Matches.cls p c hp
    · cases h
  | seq r s ihr ihs =>
    simp only [deriv] at h
    split at h
    · rename_i hn
      cases h with
      | altLeft h' =>
        cases h' with
        | seq hu hv => exact Matches.seq (ihr _ hu) hv
      | altRight h' =>
        have := Matches.seq (matches_nil_of_nullable r hn) (ihs _ h')
        simpa using this
    · cases h with
      | seq hu hv => exact Matches.seq (ihr _ hu) hv
  | alt r s ihr ihs =>
    cases h with
    | altLeft h' => exact Matches.altLeft (ihr _ h')
    | altRight h' => exact Matches.altRight (ihs _ h')
  | star r ih =>
    cases h with
    | seq hu hv => exact Matches.starCons (ih _ hu) hv

theorem deriv_of_matches_cons (r : RegExp) (x : List Char) (h : Matches r x) (c : Char)
    (w : List Char) (hx : x = c :: w) : Matches (deriv r c) w := by
  induction h generalizing w with
  | empty => simp at hx
  | char d =>
    simp only [List.cons.injEq] at hx
    obtain ⟨rfl, rfl⟩ := hx
    simp only [deriv, if_true]
    exact Matches.empty
  | cls p d hp =>
    simp only [List.cons.injEq] at hx
    obtain ⟨rfl, rfl⟩ := hx
    simp only [deriv, hp, if_true]
    exact Matches.empty
  | @seq r s u v hu hv ihu ihv =>
    cases u with
    | nil =>
      simp only [List.nil_append] at hx
      have hn := nullable_of_matches r [] hu rfl
      simp only [deriv, hn, if_true]
      exact Matches.altRight (ihv w hx)
    | cons a u' =>
      simp only [List.cons_append, List.cons.injEq] at hx
      obtain ⟨rfl, rfl⟩ := hx
      have h' := Matches.seq (ihu u' rfl) hv
      simp only [deriv]
      split
      · exact Matches.altLeft h'
      · exact h'
  | altLeft _ ih => exact Matches.altLeft (ih w hx)
  | altRight _ ih => exact Matches.altRight (ih w hx)
  | starNil => simp at hx
  | @starCons r u v hu hv ihu ihv =>
    cases u with
    | nil =>
      simp only [List.nil_append] at hx
      exact ihv w hx
    | cons a u' =>
      simp only [List.cons_append, List.cons.injEq] at hx
      obtain ⟨rfl, rfl⟩ := hx
      exact Matches.seq (ihu u' rfl) hv

/-- The matcher decides the match relation. -/
theorem test_iff (r : RegExp) (value : String) : test r value = true ↔ Matches r value.data := by
  unfold test
  generalize value.data = w
  induction w generalizing r with
  | nil => exact nullable_iff r
  | cons c cs ih =>
    rw [List.foldl_cons, ih]
    exact ⟨matches_cons_of_deriv r c cs, fun h => deriv_of_matches_cons r _ h c cs rfl⟩

end RegExp

/-! ## The claims -/

/-- C1: in `build:copy:essentials`, for every source package metadata and
each of the five dependency-map modes the generated descriptor follows the
mapping table: `cross-map-peer-dependency` gives `peerDependencies` = source
`dependencies` and no `dependencies` key; `cross-map-dependency` gives
`dependencies` = source `peerDependencies` and no `peerDependencies` key;
`map-dependency` gives `dependencies` = source `dependencies` and no
`peerDependencies` key; `map-peer-dependency` gives `peerDependencies` =
source `peerDependencies` and no `dependencies` key; `all` gives both fields
from their source namesakes. An unset field is absent from the keys. -/
theorem C1_dependency_mapping_table (config : Config) (packageJson : PackageJson) :
    ((packageDescriptor (withMode config "cross-map-peer-dependency") packageJson).get
          "peerDependencies" = packageJson.get "dependencies"
        ∧ "dependencies" ∉
          (packageDescriptor (withMode config "cross-map-peer-dependency") packageJson).keys)
      ∧ ((packageDescriptor (withMode config "cross-map-dependency") packageJson).get
          "dependencies" = packageJson.get "peerDependencies"
        ∧ "peerDependencies" ∉
          (packageDescriptor (withMode config "cross-map-dependency") packageJson).keys)
      ∧ ((packageDescriptor (withMode config "map-dependency") packageJson).get
          "dependencies" = packageJson.get "dependencies"
        ∧ "peerDependencies" ∉
          (packageDescriptor (withMode config "map-dependency") packageJson).keys)
      ∧ ((packageDescriptor (withMode config "map-peer-dependency") packageJson).get
          "peerDependencies" = packageJson.get "peerDependencies"
        ∧ "dependencies" ∉
          (packageDescriptor (withMode config "map-peer-dependency") packageJson).keys)
      ∧ ((packageDescriptor (withMode config "all") packageJson).get
          "peerDependencies" = packageJson.get "peerDependencies"
        ∧ (packageDescriptor (withMode config "all") packageJson).get
          "dependencies" = packageJson.get "dependencies") := by
  simp only [← PackageJson.get_eq_none_iff, packageDescriptor_get,
    targetPackage_get_dependencies, targetPackage_get_peerDependencies]
  simp [withMode, DependencyMap.ofMode]

/-- C2: in `build:bundle`, when no build-engine invocation of the run
throws, the sequence of `bundleBuild` invocations is the subsequence of FLAT,
FLAT MIN, ES5, ESNEXT, in that order, in which FLAT is always present, FLAT
MIN is present iff `config.output.minBundle`, ES5 iff `config.output.es5` and
ESNEXT iff `config.output.es2015`, each with the configuration built for it;
with the three flags false, FLAT is the only target attempted. -/
theorem C2_bundle_targets_in_order {π β τ σ ε : Type} (env : Env π β τ)
    (bundleBuild : RollupConfig π β → String → σ → Except ε Unit × σ)
    (config : Config) (packageJson : PackageJson) (world : σ)
    (hok : ∀ c ∈ (buildBundle env bundleBuild config packageJson world).calls, c.threw = false) :
    (buildBundle env bundleBuild config packageJson world).calls.map (fun c => c.label) =
        ["FLAT"]
          ++ (if config.output.minBundle then ["FLAT MIN"] else [])
          ++ (if config.output.es5 then ["ES5"] else [])
          ++ (if config.output.es2015 then ["ESNEXT"] else [])
      ∧ (buildBundle env bundleBuild config packageJson world).calls.map
          (fun c => (c.config, c.label)) = plannedTargets env config packageJson
      ∧ (config.output.minBundle = false → config.output.es5 = false →
          config.output.es2015 = false →
          (buildBundle env bundleBuild config packageJson world).calls.map (fun c => c.label) =
            ["FLAT"]) := by
  have hcalls := (buildBundle_calls_of_no_throw env bundleBuild config packageJson world hok).1
  have hlabels : (buildBundle env bundleBuild config packageJson world).calls.map
      (fun c => c.label) =
      ["FLAT"]
        ++ (if config.output.minBundle then ["FLAT MIN"] else [])
        ++ (if config.output.es5 then ["ES5"] else [])
        ++ (if config.output.es2015 then ["ESNEXT"] else []) := by
    have hmap : (buildBundle env bundleBuild config packageJson world).calls.map
        (fun c => c.label) =
        ((buildBundle env bundleBuild config packageJson world).calls.map
          (fun c => (c.config, c.label))).map Prod.snd := by
      simp [List.map_map, Function.comp_def]
    rw [hmap, hcalls, plannedTargets_labels]
  refine ⟨hlabels, hcalls, ?_⟩
  intro h₁ h₂ h₃
  rw [hlabels]
  simp [h₁, h₂, h₃]

/-- Witness for C2: the sample build with an engine that never fails. -/
theorem C2_bundle_targets_in_order_witness :
    (∀ c ∈ (buildBundle sampleEnv alwaysOk sampleConfig samplePackage 0).calls, c.threw = false)
      ∧ (buildBundle sampleEnv alwaysOk sampleConfig samplePackage 0).calls.map
          (fun c => c.label) = ["FLAT", "FLAT MIN", "ES5", "ESNEXT"] :=
  ⟨by decide,
    (C2_bundle_targets_in_order sampleEnv alwaysOk sampleConfig samplePackage 0 (by decide)).1⟩

/-- C3: in `build:bundle`, if the build-engine invocation of an attempted
target throws (the invocation number `i`, counted from 0), no later target is
invoked, the invocations made are exactly the first `i + 1` enabled targets
in the order FLAT, FLAT MIN, ES5, ESNEXT, none of the earlier ones threw, and
the task completes with `null` instead of letting the exception escape. -/
theorem C3_failure_aborts_remaining {π β τ σ ε : Type} (env : Env π β τ)
    (bundleBuild : RollupConfig π β → String → σ → Except ε Unit × σ)
    (config : Config) (packageJson : PackageJson) (world : σ)
    (i : Nat) (inv : Invocation π β)
    (hi : (buildBundle env bundleBuild config packageJson world).calls[i]? = some inv)
    (hthrew : inv.threw = true) :
    (buildBundle env bundleBuild config packageJson world).calls.length = i + 1
      ∧ (buildBundle env bundleBuild config packageJson world).calls.map
          (fun c => (c.config, c.label)) = (plannedTargets env config packageJson).take (i + 1)
      ∧ (buildBundle env bundleBuild config packageJson world).calls.map (fun c => c.threw) =
          List.replicate i false ++ [true]
      ∧ (buildBundle env bundleBuild config packageJson world).result =
          Except.ok JsReturn.null := by
  obtain ⟨hplan, hne, hshape⟩ := buildBundle_shape env bundleBuild config packageJson world
  generalize buildBundle env bundleBuild config packageJson world = run at hi hplan hne hshape ⊢
  have hlt : i < run.calls.length := by
    by_contra hge
    rw [List.getElem?_eq_none (Nat.le_of_not_lt hge)] at hi
    exact Option.noConfusion hi
  have hm : (run.calls.map (fun c => c.threw))[i]? = some true := by
    rw [List.getElem?_map, hi]
    simp [hthrew]
  have hpos : 0 < run.calls.length := List.length_pos.mpr hne
  rcases hshape with ⟨_, hall, _⟩ | ⟨hres, hlast⟩
  · rw [hall, List.getElem?_replicate] at hm
    simp [hlt] at hm
  · rw [hlast] at hm
    have hidx : i = run.calls.length - 1 := by
      by_contra hne'
      have hlt' : i < run.calls.length - 1 := by omega
      rw [List.getElem?_append_left (by simpa using hlt'), List.getElem?_replicate] at hm
      simp [hlt'] at hm
    have hlen : run.calls.length = i + 1 := by omega
    refine ⟨hlen, ?_, ?_, hres⟩
    · rw [hplan, hlen]
    · rw [hlast, hidx]

/-- Witness for C3: all four targets enabled, the third one (ES5) throws. -/
theorem C3_failure_aborts_remaining_witness :
    ((buildBundle sampleEnv (failingOn "ES5") sampleConfig samplePackage 0).calls[2]? =
        some sampleFailedCall
      ∧ sampleFailedCall.threw = true)
      ∧ (buildBundle sampleEnv (failingOn "ES5") sampleConfig samplePackage 0).calls.length = 3
      ∧ (buildBundle sampleEnv (failingOn "ES5") sampleConfig samplePackage 0).calls.map
          (fun c => c.label) = ["FLAT", "FLAT MIN", "ES5"]
      ∧ (buildBundle sampleEnv (failingOn "ES5") sampleConfig samplePackage 0).result =
          Except.ok JsReturn.null :=
  ⟨⟨rfl, rfl⟩,
    (C3_failure_aborts_remaining sampleEnv (failingOn "ES5") sampleConfig samplePackage 0 2
      sampleFailedCall rfl rfl).1,
    by
      have h := (C3_failure_aborts_remaining sampleEnv (failingOn "ES5") sampleConfig
        samplePackage 0 2 sampleFailedCall rfl rfl).2.1
      have h' := congrArg (List.map Prod.snd) h
      simpa [plannedTargets, sampleConfig] using h',
    (C3_failure_aborts_remaining sampleEnv (failingOn "ES5") sampleConfig samplePackage 0 2
      sampleFailedCall rfl rfl).2.2.2⟩

/-- C4, as stated, fails: with `externals = ["a"]`, `globals = {"b": "B"}` and
`mapExternals` set, the ES5 and ESNEXT targets receive `["a"]`, not the set
`["a", "b"]` computed by `extractBundleExternals`. -/
theorem C4_externals_shared_counterexample :
    extractBundleExternals sampleConfig = ["a", "b"]
      ∧ (buildBundle sampleEnv alwaysOk sampleConfig samplePackage 0).calls.map
          (fun c => (c.label, c.config.external)) =
        [("FLAT", ["a", "b"]), ("FLAT MIN", ["a", "b"]), ("ES5", ["a"]), ("ESNEXT", ["a"])]
      ∧ ¬ (∀ c ∈ (buildBundle sampleEnv alwaysOk sampleConfig samplePackage 0).calls,
          c.config.external = extractBundleExternals sampleConfig) := by
  decide

/-- C4, amended: the externals computed by `extractBundleExternals(config)`
are the `external` override of the FLAT and FLAT MIN targets; the ES5 and
ESNEXT targets receive the configured list `config.bundle.externals`. The
attempted targets, with the externals they receive, are an initial segment of
that list of pairs. -/
theorem C4_externals_per_target {π β τ σ ε : Type} (env : Env π β τ)
    (bundleBuild : RollupConfig π β → String → σ → Except ε Unit × σ)
    (config : Config) (packageJson : PackageJson) (world : σ) :
    (buildBundle env bundleBuild config packageJson world).calls.map
        (fun c => (c.label, c.config.external)) <+:
      [("FLAT", extractBundleExternals config)]
        ++ (if config.output.minBundle then [("FLAT MIN", extractBundleExternals config)] else [])
        ++ (if config.output.es5 then [("ES5", config.bundle.externals)] else [])
        ++ (if config.output.es2015 then [("ESNEXT", config.bundle.externals)] else []) := by
  obtain ⟨hplan, -, -⟩ := buildBundle_shape env bundleBuild config packageJson world
  have hmap : (buildBundle env bundleBuild config packageJson world).calls.map
      (fun c => (c.label, c.config.external)) =
      ((buildBundle env bundleBuild config packageJson world).calls.map
        (fun c => (c.config, c.label))).map (fun p => (p.2, p.1.external)) := by
    simp [List.map_map, Function.comp_def]
  rw [hmap, hplan, List.map_take]
  have hrhs : (plannedTargets env config packageJson).map (fun p => (p.2, p.1.external)) =
      [("FLAT", extractBundleExternals config)]
        ++ (if config.output.minBundle then [("FLAT MIN", extractBundleExternals config)] else [])
        ++ (if config.output.es5 then [("ES5", config.bundle.externals)] else [])
        ++ (if config.output.es2015 then [("ESNEXT", config.bundle.externals)] else []) := by
    cases h₁ : config.output.minBundle <;> cases h₂ : config.output.es5 <;>
      cases h₃ : config.output.es2015 <;>
      simp [plannedTargets, h₁, h₂, h₃, flatConfig, minifiedFlatConfig, fesm5config,
        fesm2015config, merge, flatOverrides, minifiedFlatOverrides, fesm5Overrides,
        fesm2015Overrides]
  rw [← hrhs]
  exact List.take_prefix _ _

/-- C5, as stated, fails: a command-line project whose source `package.json`
has no `bin` entry gets a descriptor without a `bin` field. -/
theorem C5_bin_field_counterexample :
    sampleConfig.compiler.cliProject = true
      ∧ "bin" ∉ (packageDescriptor sampleConfig samplePackage).keys := by
  decide

/-- C5, amended: the `bin` field of the descriptor is the `bin` field of the
source descriptor when the project is a command-line project, present exactly
when the source has one; the descriptor has no `bin` field when the project
is not a command-line project. -/
theorem C5_bin_field (config : Config) (packageJson : PackageJson) :
    (packageDescriptor config packageJson).get "bin" =
        (if config.compiler.cliProject then packageJson.get "bin" else none)
      ∧ ("bin" ∈ (packageDescriptor config packageJson).keys ↔
          config.compiler.cliProject = true ∧ "bin" ∈ packageJson.keys) := by
  have hget : (packageDescriptor config packageJson).get "bin" =
      (if config.compiler.cliProject then packageJson.get "bin" else none) := by
    rw [packageDescriptor_get]
    simp only [targetPackage, fieldsToCopy, List.foldl]
    repeat' split
    all_goals simp_all [JsObject.get_set, JsObject.get_nil]
  refine ⟨hget, ?_⟩
  have h₁ := PackageJson.get_eq_none_iff (packageDescriptor config packageJson) "bin"
  have h₂ := PackageJson.get_eq_none_iff packageJson "bin"
  rw [hget] at h₁
  cases hc : config.compiler.cliProject
  · simp only [hc] at h₁
    simpa using h₁
  · simp only [hc, if_true] at h₁
    rw [h₂] at h₁
    simpa using (not_iff_not.mp h₁).symm

/-- C6: each of the nine whitelisted fields of the descriptor built by
`build:copy:essentials` equals the same field of the source descriptor; the
keys of the descriptor are among the whitelist, `bin`, the computed path and
typings fields and the two dependency fields; and the descriptor does not
change when the source changes outside the whitelist, `bin`, `dependencies`
and `peerDependencies`, so that no other source field is copied. -/
theorem C6_whitelisted_fields_only (config : Config) (packageJson other : PackageJson)
    (hsame : ∀ k ∈ ["name", "version", "description", "keywords", "author", "repository",
        "license", "bugs", "homepage", "bin", "dependencies", "peerDependencies"],
      packageJson.get k = other.get k) :
    ["name", "version", "description", "keywords", "author", "repository", "license", "bugs",
          "homepage"].map (packageDescriptor config packageJson).get =
        ["name", "version", "description", "keywords", "author", "repository", "license", "bugs",
          "homepage"].map packageJson.get
      ∧ (packageDescriptor config packageJson).keys ⊆
          ["name", "version", "description", "keywords", "author", "repository", "license",
            "bugs", "homepage", "bin", "main", "typings", "module", "fesm5", "esnext",
            "fesmnext", "dependencies", "peerDependencies"]
      ∧ packageDescriptor config packageJson = packageDescriptor config other := by
  refine ⟨?_, ?_, ?_⟩
  · simp only [List.map, packageDescriptor_get]
    rw [targetPackage_get_of_not_computed config packageJson "name" (by decide),
      targetPackage_get_of_not_computed config packageJson "version" (by decide),
      targetPackage_get_of_not_computed config packageJson "description" (by decide),
      targetPackage_get_of_not_computed config packageJson "keywords" (by decide),
      targetPackage_get_of_not_computed config packageJson "author" (by decide),
      targetPackage_get_of_not_computed config packageJson "repository" (by decide),
      targetPackage_get_of_not_computed config packageJson "license" (by decide),
      targetPackage_get_of_not_computed config packageJson "bugs" (by decide),
      targetPackage_get_of_not_computed config packageJson "homepage" (by decide)]
    simp [fieldsToCopy]
  · intro k hk
    by_contra hnot
    have hnone : (packageDescriptor config packageJson).get k = none := by
      simp only [List.mem_cons, List.mem_singleton, not_or, List.not_mem_nil, or_false] at hnot
      rw [packageDescriptor_get, targetPackage_get_of_not_computed config packageJson k
        (by simp [hnot])]
      simp [fieldsToCopy, hnot]
    exact ((PackageJson.get_eq_none_iff _ k).mp hnone) hk
  · have h₁ := hsame "name" (by simp)
    have h₂ := hsame "version" (by simp)
    have h₃ := hsame "description" (by simp)
    have h₄ := hsame "keywords" (by simp)
    have h₅ := hsame "author" (by simp)
    have h₆ := hsame "repository" (by simp)
    have h₇ := hsame "license" (by simp)
    have h₈ := hsame "bugs" (by simp)
    have h₉ := hsame "homepage" (by simp)
    have h₁₀ := hsame "bin" (by simp)
    have h₁₁ := hsame "dependencies" (by simp)
    have h₁₂ := hsame "peerDependencies" (by simp)
    unfold packageDescriptor targetPackage
    simp only [fieldsToCopy, List.foldl_cons, List.foldl_nil]
    rw [h₁, h₂, h₃, h₄, h₅, h₆, h₇, h₈, h₉, h₁₁, h₁₂]
    cases hc : config.compiler.cliProject
    · rfl
    · rw [h₁₀]

/-- Witness for C6: two sources that differ in `main`, `scripts` and
`devDependencies` only. -/
theorem C6_whitelisted_fields_only_witness :
    (∀ k ∈ ["name", "version", "description", "keywords", "author", "repository",
        "license", "bugs", "homepage", "bin", "dependencies", "peerDependencies"],
      samplePackage.get k = samplePackageOther.get k)
      ∧ packageDescriptor sampleConfig samplePackage =
        packageDescriptor sampleConfig samplePackageOther :=
  have hsame : ∀ k ∈ ["name", "version", "description", "keywords", "author", "repository",
      "license", "bugs", "homepage", "bin", "dependencies", "peerDependencies"],
      samplePackage.get k = samplePackageOther.get k := by
    intro k hk
    simp only [List.mem_cons, List.mem_singleton, List.not_mem_nil, or_false] at hk
    rcases hk with rfl | rfl | rfl | rfl | rfl | rfl | rfl | rfl | rfl | rfl | rfl | rfl <;> rfl
  ⟨hsame, (C6_whitelisted_fields_only sampleConfig samplePackage samplePackageOther hsame).2.2⟩

/-- C7: for every configuration and package name, the `main` field of the
generated descriptor points at the flat bundle: joining the current
directory and the output directory with the value of `main` gives the output
file of the FLAT target, which is the first target handed to the build
engine. -/
theorem C7_main_points_at_flat_bundle {π β τ σ ε : Type} (env : Env π β τ)
    (bundleBuild : RollupConfig π β → String → σ → Except ε Unit × σ)
    (config : Config) (packageJson : PackageJson) (world : σ) :
    ∃ main, (packageDescriptor config packageJson).get "main" = some (.str main)
      ∧ path.join [env.cwd, config.dist, main] = (flatConfig env config packageJson).output.file
      ∧ ((buildBundle env bundleBuild config packageJson world).calls.map
          (fun c => (c.label, c.config.output.file))).head? =
        some ("FLAT", path.join [env.cwd, config.dist, main]) := by
  have hjoin : path.join [env.cwd, config.dist,
      path.join ["bundle", templateString (packageJson.get "name") ++ ".js"]] =
      (flatConfig env config packageJson).output.file := by
    simp only [flatConfig, merge, flatOverrides, templateString_js]
    exact path.join_nested_js _ _ "bundle" _ (by decide) (by decide)
  refine ⟨path.join ["bundle", templateString (packageJson.get "name") ++ ".js"], ?_, hjoin, ?_⟩
  · rw [packageDescriptor_get]
    exact (targetPackage_get_paths config packageJson).1
  · obtain ⟨hplan, hne, -⟩ := buildBundle_shape env bundleBuild config packageJson world
    have hmap : (buildBundle env bundleBuild config packageJson world).calls.map
        (fun c => (c.label, c.config.output.file)) =
        ((buildBundle env bundleBuild config packageJson world).calls.map
          (fun c => (c.config, c.label))).map (fun p => (p.2, p.1.output.file)) := by
      simp [List.map_map, Function.comp_def]
    obtain ⟨n, hn⟩ : ∃ n, (buildBundle env bundleBuild config packageJson world).calls.length =
        n + 1 := ⟨_, (Nat.succ_pred_eq_of_pos (List.length_pos.mpr hne)).symm⟩
    rw [hmap, hplan, hn, hjoin]
    simp [plannedTargets]

/-- C8, as stated, fails: when the build engine throws on the FLAT target,
the descriptor has the fields `module`, `fesm5`, `esnext` and `fesmnext`
although neither the ES5 nor the ESNEXT target is attempted. -/
theorem C8_format_fields_counterexample :
    sampleConfig.output.es5 = true ∧ sampleConfig.output.es2015 = true
      ∧ ∃ written run,
        build sampleEnv (failingOn "FLAT") sampleConfig samplePackage 0 =
            (Except.ok written, some run)
          ∧ "module" ∈ written.descriptor.keys
          ∧ "esnext" ∈ written.descriptor.keys
          ∧ run.calls.map (fun c => c.label) = ["FLAT"] :=
  ⟨by decide, by decide, _, _, rfl, by decide, by decide, by decide⟩

/-- C8, amended: in the descriptor built by `build:copy:essentials` the
fields `module` and `fesm5` are present iff `config.output.es5` is set and
the fields `esnext` and `fesmnext` are present iff `config.output.es2015` is
set; when present each holds the path, relative to the output directory, of
the file that `build:bundle` writes for that target. A target that is
attempted has its fields in the descriptor, and in a run in which no
build-engine invocation throws a format field is present exactly when its
target is attempted. -/
theorem C8_format_fields {π β τ σ ε : Type} (env : Env π β τ)
    (bundleBuild : RollupConfig π β → String → σ → Except ε Unit × σ)
    (config : Config) (packageJson : PackageJson) (world : σ) :
    (("module" ∈ (packageDescriptor config packageJson).keys ↔ config.output.es5 = true)
        ∧ ("fesm5" ∈ (packageDescriptor config packageJson).keys ↔ config.output.es5 = true)
        ∧ ("esnext" ∈ (packageDescriptor config packageJson).keys ↔ config.output.es2015 = true)
        ∧ ("fesmnext" ∈ (packageDescriptor config packageJson).keys ↔
            config.output.es2015 = true))
      ∧ (∃ fesm5 fesmnext,
          (packageDescriptor config packageJson).get "module" =
              (if config.output.es5 then some (.str fesm5) else none)
            ∧ (packageDescriptor config packageJson).get "fesm5" =
              (if config.output.es5 then some (.str fesm5) else none)
            ∧ (packageDescriptor config packageJson).get "esnext" =
              (if config.output.es2015 then some (.str fesmnext) else none)
            ∧ (packageDescriptor config packageJson).get "fesmnext" =
              (if config.output.es2015 then some (.str fesmnext) else none)
            ∧ path.join [env.cwd, config.dist, fesm5] =
              (fesm5config env config packageJson).output.file
            ∧ path.join [env.cwd, config.dist, fesmnext] =
              (fesm2015config env config packageJson).output.file)
      ∧ ("ES5" ∈ (buildBundle env bundleBuild config packageJson world).calls.map
            (fun c => c.label) → "module" ∈ (packageDescriptor config packageJson).keys)
      ∧ ("ESNEXT" ∈ (buildBundle env bundleBuild config packageJson world).calls.map
            (fun c => c.label) → "esnext" ∈ (packageDescriptor config packageJson).keys)
      ∧ ((∀ c ∈ (buildBundle env bundleBuild config packageJson world).calls, c.threw = false) →
          ("module" ∈ (packageDescriptor config packageJson).keys ↔
              (fesm5config env config packageJson, "ES5") ∈
                (buildBundle env bundleBuild config packageJson world).calls.map
                  (fun c => (c.config, c.label)))
            ∧ ("esnext" ∈ (packageDescriptor config packageJson).keys ↔
              (fesm2015config env config packageJson, "ESNEXT") ∈
                (buildBundle env bundleBuild config packageJson world).calls.map
                  (fun c => (c.config, c.label)))) := by
  obtain ⟨-, hmod, hf5, hnext, hfnext⟩ := targetPackage_get_paths config packageJson
  have hkey : ∀ k, k ∈ (packageDescriptor config packageJson).keys ↔
      (targetPackage config packageJson).get k ≠ none := by
    intro k
    rw [← packageDescriptor_get, ne_eq, PackageJson.get_eq_none_iff, not_not]
  have hkeys : ("module" ∈ (packageDescriptor config packageJson).keys ↔ config.output.es5 = true)
      ∧ ("fesm5" ∈ (packageDescriptor config packageJson).keys ↔ config.output.es5 = true)
      ∧ ("esnext" ∈ (packageDescriptor config packageJson).keys ↔ config.output.es2015 = true)
      ∧ ("fesmnext" ∈ (packageDescriptor config packageJson).keys ↔
          config.output.es2015 = true) := by
    simp only [hkey, hmod, hf5, hnext, hfnext]
    cases config.output.es5 <;> cases config.output.es2015 <;> simp
  have hlabels := plannedTargets_labels env config packageJson
  refine ⟨hkeys, ?_, ?_, ?_, ?_⟩
  · refine ⟨path.join ["fesm5", templateString (packageJson.get "name") ++ ".js"],
      path.join ["fesmnext", templateString (packageJson.get "name") ++ ".js"], ?_, ?_, ?_, ?_,
      ?_, ?_⟩
    · rw [packageDescriptor_get, hmod]
    · rw [packageDescriptor_get, hf5]
    · rw [packageDescriptor_get, hnext]
    · rw [packageDescriptor_get, hfnext]
    · simp only [fesm5config, merge, fesm5Overrides, templateString_js]
      exact path.join_nested_js _ _ "fesm5" _ (by decide) (by decide)
    · simp only [fesm2015config, merge, fesm2015Overrides, templateString_js]
      exact path.join_nested_js _ _ "fesmnext" _ (by decide) (by decide)
  · intro h
    have h' := buildBundle_labels_subset env bundleBuild config packageJson world "ES5" h
    rw [hlabels] at h'
    rw [hkeys.1]
    cases h₂ : config.output.es5
    · cases h₁ : config.output.minBundle <;> cases h₃ : config.output.es2015 <;>
        simp [h₁, h₂, h₃] at h'
    · rfl
  · intro h
    have h' := buildBundle_labels_subset env bundleBuild config packageJson world "ESNEXT" h
    rw [hlabels] at h'
    rw [hkeys.2.2.1]
    cases h₃ : config.output.es2015
    · cases h₁ : config.output.minBundle <;> cases h₂ : config.output.es5 <;>
        simp [h₁, h₂, h₃] at h'
    · rfl
  · intro hok
    rw [(buildBundle_calls_of_no_throw env bundleBuild config packageJson world hok).1, hkeys.1,
      hkeys.2.2.1]
    cases h₁ : config.output.minBundle <;> cases h₂ : config.output.es5 <;>
      cases h₃ : config.output.es2015 <;> simp [plannedTargets, h₁, h₂, h₃]

/-- C9, as stated, fails: with the unknown mode `unknown-mode` the build
does not stop: the descriptor is written, without dependency fields, and all
four targets are handed to the build engine. -/
theorem C9_unknown_mode_counterexample :
    DependencyMap.ofMode "unknown-mode" = none
      ∧ ∃ written run,
        build sampleEnv alwaysOk (withMode sampleConfig "unknown-mode") samplePackage 0 =
            (Except.ok written, some run)
          ∧ written.descriptor.keys =
            ["name", "version", "main", "module", "fesm5", "esnext", "fesmnext"]
          ∧ run.calls.map (fun c => c.label) = ["FLAT", "FLAT MIN", "ES5", "ESNEXT"] :=
  ⟨by decide, _, _, rfl, by decide, by decide⟩

/-- C9, amended: a dependency-map mode that selects none of the five case
labels, being neither one of the five mode names nor the name of a member of
the enumeration, is not rejected. When `config.copy` is not empty, so that
`gulp.src` accepts its list, `build:copy:essentials` writes the descriptor,
without a `dependencies` and without a `peerDependencies` field, and the
series goes on to `build:bundle`, which hands the FLAT target to the build
engine first. -/
theorem C9_unknown_mode_is_ignored {π β τ σ ε : Type} (env : Env π β τ)
    (bundleBuild : RollupConfig π β → String → σ → Except ε Unit × σ)
    (config : Config) (packageJson : PackageJson) (world : σ)
    (hmode : DependencyMap.ofMode config.output.dependencyMapMode = none)
    (hcopy : config.copy ≠ []) :
    ∃ written run,
      build env bundleBuild config packageJson world = (Except.ok written, some run)
        ∧ written.descriptor = packageDescriptor config packageJson
        ∧ "dependencies" ∉ written.descriptor.keys
        ∧ "peerDependencies" ∉ written.descriptor.keys
        ∧ run = buildBundle env bundleBuild config packageJson world
        ∧ (run.calls.map (fun c => (c.config, c.label))).head? =
          some (flatConfig env config packageJson, "FLAT") := by
  obtain ⟨written, hwritten, hdescriptor⟩ :=
    buildCopyEssentials_ok env.cwd config packageJson hcopy
  refine ⟨written, buildBundle env bundleBuild config packageJson world, ?_, hdescriptor, ?_, ?_,
    rfl, ?_⟩
  · simp only [build, hwritten]
  · rw [hdescriptor, ← PackageJson.get_eq_none_iff]
    simp only [packageDescriptor_get, targetPackage_get_dependencies, hmode]
  · rw [hdescriptor, ← PackageJson.get_eq_none_iff]
    simp only [packageDescriptor_get, targetPackage_get_peerDependencies, hmode]
  · obtain ⟨hplan, hne, -⟩ := buildBundle_shape env bundleBuild config packageJson world
    rw [hplan]
    have hpos : 0 < (buildBundle env bundleBuild config packageJson world).calls.length :=
      List.length_pos.mpr hne
    obtain ⟨n, hn⟩ : ∃ n, (buildBundle env bundleBuild config packageJson world).calls.length =
        n + 1 := ⟨_, (Nat.succ_pred_eq_of_pos hpos).symm⟩
    rw [hn]
    simp [plannedTargets]

/-- Witness for C9: the sample build with the mode `unknown-mode`. -/
theorem C9_unknown_mode_is_ignored_witness :
    (DependencyMap.ofMode (withMode sampleConfig "unknown-mode").output.dependencyMapMode = none
        ∧ (withMode sampleConfig "unknown-mode").copy ≠ [])
      ∧ ∃ written run,
        build sampleEnv alwaysOk (withMode sampleConfig "unknown-mode") samplePackage 0 =
            (Except.ok written, some run)
          ∧ "dependencies" ∉ written.descriptor.keys
          ∧ "peerDependencies" ∉ written.descriptor.keys :=
  ⟨⟨by decide, by decide⟩,
    match C9_unknown_mode_is_ignored sampleEnv alwaysOk (withMode sampleConfig "unknown-mode")
      samplePackage 0 (by decide) (by decide) with
    | ⟨written, run, hbuild, _, hdeps, hpeer, _, _⟩ => ⟨written, run, hbuild, hdeps, hpeer⟩⟩

/-- C10: for every configuration, the plugin lists assembled for the FLAT
and FLAT MIN targets contain the module-resolution stages
`resolvePlugins(config)`, as a contiguous block, and these are their only
resolution stages; the plugin lists assembled for the ES5 and ESNEXT targets
from the same configuration contain no module-resolution stage. -/
theorem C10_resolution_stages {π β τ : Type} (env : Env π β τ) (config : Config)
    (packageJson : PackageJson) :
    ((env.resolvePlugins config).map Stage.resolve <:+: (flatConfig env config packageJson).plugins
        ∧ (flatConfig env config packageJson).plugins.filter Stage.isResolve =
          (env.resolvePlugins config).map Stage.resolve)
      ∧ ((env.resolvePlugins config).map Stage.resolve <:+:
          (minifiedFlatConfig env config packageJson).plugins
        ∧ (minifiedFlatConfig env config packageJson).plugins.filter Stage.isResolve =
          (env.resolvePlugins config).map Stage.resolve)
      ∧ (fesm5config env config packageJson).plugins.filter Stage.isResolve = []
      ∧ (fesm2015config env config packageJson).plugins.filter Stage.isResolve = [] := by
  have hpre := Stage.filter_isResolve_map_of_not (π := π) Stage.preBundle (fun _ => rfl)
  have hbuild := Stage.filter_isResolve_map_of_not (π := π) Stage.build (fun _ => rfl)
  have hpost := Stage.filter_isResolve_map_of_not (π := π) Stage.postBundle (fun _ => rfl)
  refine ⟨⟨?_, ?_⟩, ⟨?_, ?_⟩, ?_, ?_⟩
  · refine ⟨[Stage.styleBuild (env.rollupStyleBuildPlugin config packageJson false false true)]
        ++ (env.preBundlePlugins config).map Stage.preBundle,
      (env.buildPlugin "bundle" true true config env.typescript).map Stage.build
        ++ env.postBundlePlugins.map Stage.postBundle, ?_⟩
    simp [flatConfig, merge, flatOverrides]
  · simp [flatConfig, merge, flatOverrides, List.filter_cons, Stage.isResolve, hpre, hbuild, hpost,
      Stage.filter_isResolve_map_resolve]
  · refine ⟨[Stage.styleBuild (env.rollupStyleBuildPlugin config packageJson false true true)]
        ++ (env.preBundlePlugins config).map Stage.preBundle,
      (env.buildPlugin "bundle" false true config env.typescript).map Stage.build
        ++ [Stage.uglify (env.rollupUglify "@preserve|@license")]
        ++ env.postBundlePlugins.map Stage.postBundle, ?_⟩
    simp [minifiedFlatConfig, merge, minifiedFlatOverrides]
  · simp [minifiedFlatConfig, merge, minifiedFlatOverrides, List.filter_cons, Stage.isResolve,
      hpre, hbuild, hpost, Stage.filter_isResolve_map_resolve]
  · simp [fesm5config, merge, fesm5Overrides, List.filter_cons, Stage.isResolve, hpre, hbuild,
      hpost]
  · simp [fesm2015config, merge, fesm2015Overrides, List.filter_cons, Stage.isResolve, hpre,
      hbuild, hpost]

/-- C11: for every configuration and every target, the plugin list assembled
in `build:bundle` is, in this order: the style-bundling stage, the pre-bundle
stages, the module-resolution stages (FLAT and FLAT MIN only), the transform
stages, the minification stage (FLAT MIN only, after the transform stages)
and the post-bundle stages, which end the list of each of the four targets.
Each list is ordered by the rank of its stage categories. -/
theorem C11_plugin_order {π β τ : Type} (env : Env π β τ) (config : Config)
    (packageJson : PackageJson) :
    ((flatConfig env config packageJson).plugins =
          [Stage.styleBuild (env.rollupStyleBuildPlugin config packageJson false false true)]
            ++ (env.preBundlePlugins config).map Stage.preBundle
            ++ (env.resolvePlugins config).map Stage.resolve
            ++ (env.buildPlugin "bundle" true true config env.typescript).map Stage.build
            ++ env.postBundlePlugins.map Stage.postBundle
        ∧ (minifiedFlatConfig env config packageJson).plugins =
          [Stage.styleBuild (env.rollupStyleBuildPlugin config packageJson false true true)]
            ++ (env.preBundlePlugins config).map Stage.preBundle
            ++ (env.resolvePlugins config).map Stage.resolve
            ++ (env.buildPlugin "bundle" false true config env.typescript).map Stage.build
            ++ [Stage.uglify (env.rollupUglify "@preserve|@license")]
            ++ env.postBundlePlugins.map Stage.postBundle
        ∧ (fesm5config env config packageJson).plugins =
          [Stage.styleBuild (env.rollupStyleBuildPlugin config packageJson false true false)]
            ++ (env.preBundlePlugins config).map Stage.preBundle
            ++ (env.buildPlugin "es5" false true config env.typescript).map Stage.build
            ++ env.postBundlePlugins.map Stage.postBundle
        ∧ (fesm2015config env config packageJson).plugins =
          [Stage.styleBuild (env.rollupStyleBuildPlugin config packageJson false true false)]
            ++ (env.preBundlePlugins config).map Stage.preBundle
            ++ (env.buildPlugin "esnext" false true config env.typescript).map Stage.build
            ++ env.postBundlePlugins.map Stage.postBundle)
      ∧ ((flatConfig env config packageJson).plugins.Pairwise (fun a b => a.rank ≤ b.rank)
        ∧ (minifiedFlatConfig env config packageJson).plugins.Pairwise
          (fun a b => a.rank ≤ b.rank)
        ∧ (fesm5config env config packageJson).plugins.Pairwise (fun a b => a.rank ≤ b.rank)
        ∧ (fesm2015config env config packageJson).plugins.Pairwise
          (fun a b => a.rank ≤ b.rank))
      ∧ ((flatConfig env config packageJson).plugins.filter Stage.isUglify = []
        ∧ (minifiedFlatConfig env config packageJson).plugins.filter Stage.isUglify =
          [Stage.uglify (env.rollupUglify "@preserve|@license")]
        ∧ (fesm5config env config packageJson).plugins.filter Stage.isUglify = []
        ∧ (fesm2015config env config packageJson).plugins.filter Stage.isUglify = [])
      ∧ (env.postBundlePlugins.map Stage.postBundle <:+ (flatConfig env config packageJson).plugins
        ∧ env.postBundlePlugins.map Stage.postBundle <:+
          (minifiedFlatConfig env config packageJson).plugins
        ∧ env.postBundlePlugins.map Stage.postBundle <:+
          (fesm5config env config packageJson).plugins
        ∧ env.postBundlePlugins.map Stage.postBundle <:+
          (fesm2015config env config packageJson).plugins) := by
  have hpre := Stage.filter_isUglify_map_of_not (π := π) Stage.preBundle (fun _ => rfl)
  have hres := Stage.filter_isUglify_map_of_not (π := π) Stage.resolve (fun _ => rfl)
  have hbuild := Stage.filter_isUglify_map_of_not (π := π) Stage.build (fun _ => rfl)
  have hpost := Stage.filter_isUglify_map_of_not (π := π) Stage.postBundle (fun _ => rfl)
  have hstyle : ∀ p : π, ∀ x ∈ [Stage.styleBuild p], x.rank = 0 := by
    intro p x hx
    simp only [List.mem_singleton] at hx
    subst hx
    rfl
  have hugly : ∀ p : π, ∀ x ∈ [Stage.uglify p], x.rank = 4 := by
    intro p x hx
    simp only [List.mem_singleton] at hx
    subst hx
    rfl
  refine ⟨⟨rfl, rfl, rfl, rfl⟩, ⟨?_, ?_, ?_, ?_⟩, ⟨?_, ?_, ?_, ?_⟩, ⟨?_, ?_, ?_, ?_⟩⟩
  · have h := Stage.pairwise_rank_blocks
      [Stage.styleBuild (env.rollupStyleBuildPlugin config packageJson false false true)] []
      (env.preBundlePlugins config) (env.resolvePlugins config)
      (env.buildPlugin "bundle" true true config env.typescript) env.postBundlePlugins
      (hstyle _) (by simp)
    simpa [flatConfig, merge, flatOverrides] using h
  · have h := Stage.pairwise_rank_blocks
      [Stage.styleBuild (env.rollupStyleBuildPlugin config packageJson false true true)]
      [Stage.uglify (env.rollupUglify "@preserve|@license")]
      (env.preBundlePlugins config) (env.resolvePlugins config)
      (env.buildPlugin "bundle" false true config env.typescript) env.postBundlePlugins
      (hstyle _) (hugly _)
    simpa [minifiedFlatConfig, merge, minifiedFlatOverrides] using h
  · have h := Stage.pairwise_rank_blocks
      [Stage.styleBuild (env.rollupStyleBuildPlugin config packageJson false true false)] []
      (env.preBundlePlugins config) []
      (env.buildPlugin "es5" false true config env.typescript) env.postBundlePlugins
      (hstyle _) (by simp)
    simpa [fesm5config, merge, fesm5Overrides] using h
  · have h := Stage.pairwise_rank_blocks
      [Stage.styleBuild (env.rollupStyleBuildPlugin config packageJson false true false)] []
      (env.preBundlePlugins config) []
      (env.buildPlugin "esnext" false true config env.typescript) env.postBundlePlugins
      (hstyle _) (by simp)
    simpa [fesm2015config, merge, fesm2015Overrides] using h
  · simp [flatConfig, merge, flatOverrides, List.filter_cons, Stage.isUglify, hpre, hres, hbuild,
      hpost]
  · simp [minifiedFlatConfig, merge, minifiedFlatOverrides, List.filter_cons, Stage.isUglify,
      hpre, hres, hbuild, hpost]
  · simp [fesm5config, merge, fesm5Overrides, List.filter_cons, Stage.isUglify, hpre, hbuild,
      hpost]
  · simp [fesm2015config, merge, fesm2015Overrides, List.filter_cons, Stage.isUglify, hpre,
      hbuild, hpost]
  · exact List.suffix_append _ _
  · exact List.suffix_append _ _
  · exact List.suffix_append _ _
  · exact List.suffix_append _ _

/-- C12: the `validate` function of the `namespace` question should accept
every object path, that is every dot-separated sequence of non-empty
alphabetic segments. It accepts `ys.nml.lib`, but it rejects the object path
`a.b.c` with the message that the namespace should be an object path. -/
theorem C12_namespace_rejects_object_path :
    isObjectPath "a.b.c" = true
      ∧ namespaceValidate "a.b.c" =
        Validation.rejected "Namespace should be an object path, i.e: 'ys.nml.lib'"
      ∧ isObjectPath "ys.nml.lib" = true
      ∧ namespaceValidate "ys.nml.lib" = Validation.accepted := by
  decide

/-- C13: the `validate` function of the `amdId` question should accept only
ids made of ASCII letters and `-`. It accepts the empty string and
`my-bundle`, but it also accepts `a1`, which contains a digit. -/
theorem C13_amdId_accepts_digit :
    amdIdValidate "a1" = Validation.accepted
      ∧ ("a1".data.all (fun c => isAsciiLetter c || c == '-')) = false
      ∧ amdIdValidate "" = Validation.accepted
      ∧ amdIdValidate "my-bundle" = Validation.accepted := by
  decide

/-- C14, as stated, fails: for the package name `../a` the FLAT, ES5 and
ESNEXT targets are all given the output file `/work/dist/a.js`. -/
theorem C14_output_files_counterexample :
    (flatConfig sampleEnv sampleConfig climbingPackage).output.file = "/work/dist/a.js"
      ∧ (fesm5config sampleEnv sampleConfig climbingPackage).output.file = "/work/dist/a.js"
      ∧ (fesm2015config sampleEnv sampleConfig climbingPackage).output.file =
        "/work/dist/a.js" := by
  decide

/-- C14, amended: for every configuration and every package name without a
`..` path segment, the output file paths that `build:bundle` passes to the
build engine for the four targets are pairwise distinct. -/
theorem C14_output_files_distinct {π β τ : Type} (env : Env π β τ) (config : Config)
    (packageJson : PackageJson)
    (hname : ['.', '.'] ∉ path.splitSlash (templateString (packageJson.get "name")).data) :
    [(flatConfig env config packageJson).output.file,
      (minifiedFlatConfig env config packageJson).output.file,
      (fesm5config env config packageJson).output.file,
      (fesm2015config env config packageJson).output.file].Nodup := by
  have hjs : (".js" : String) = ".j" ++ "s" := rfl
  have hmin : (".min.js" : String) = ".min.j" ++ "s" := rfl
  simp only [flatConfig, minifiedFlatConfig, fesm5config, fesm2015config, merge, flatOverrides,
    minifiedFlatOverrides, fesm5Overrides, fesm2015Overrides, hjs, hmin]
  simp only [List.nodup_cons, List.mem_cons, List.mem_singleton, List.not_mem_nil, not_or,
    List.nodup_nil, and_true, not_false_eq_true]
  refine ⟨⟨?_, ?_, ?_⟩, ⟨?_, ?_⟩, ?_⟩
  · exact path.join_dir_file_ne _ _ "bundle" "bundle" _ ".j" ".min.j" (by decide) (by decide)
      (by decide) (by decide) hname (Or.inr (by decide))
  · exact path.join_dir_file_ne _ _ "bundle" "fesm5" _ ".j" ".j" (by decide) (by decide)
      (by decide) (by decide) hname (Or.inl (by decide))
  · exact path.join_dir_file_ne _ _ "bundle" "fesmnext" _ ".j" ".j" (by decide) (by decide)
      (by decide) (by decide) hname (Or.inl (by decide))
  · exact path.join_dir_file_ne _ _ "bundle" "fesm5" _ ".min.j" ".j" (by decide) (by decide)
      (by decide) (by decide) hname (Or.inl (by decide))
  · exact path.join_dir_file_ne _ _ "bundle" "fesmnext" _ ".min.j" ".j" (by decide) (by decide)
      (by decide) (by decide) hname (Or.inl (by decide))
  · exact path.join_dir_file_ne _ _ "fesm5" "fesmnext" _ ".j" ".j" (by decide) (by decide)
      (by decide) (by decide) hname (Or.inl (by decide))

/-- Witness for C14: the sample package `my-lib`. -/
theorem C14_output_files_distinct_witness :
    ['.', '.'] ∉ path.splitSlash (templateString (samplePackage.get "name")).data
      ∧ [(flatConfig sampleEnv sampleConfig samplePackage).output.file,
          (minifiedFlatConfig sampleEnv sampleConfig samplePackage).output.file,
          (fesm5config sampleEnv sampleConfig samplePackage).output.file,
          (fesm2015config sampleEnv sampleConfig samplePackage).output.file].Nodup :=
  ⟨by decide, C14_output_files_distinct sampleEnv sampleConfig samplePackage (by decide)⟩

end Packer
